import Mathlib

/-!
Verification of the thread-coordination programs in `src/Threads`

Each program is embedded as a transition system.  A state holds the shared
variables of the C file, the state of every lock, and one program counter per
thread; a program counter `Lnn` means "the next statement this thread executes
is the one at line `nn` of the source file".  One step executes one
synchronisation operation or one access to shared memory of one thread, so the
set of runs of the model is the set of interleavings of the threads.

A blocked operation (locking a held mutex, `sem_wait` on a zero semaphore, a
thread suspended in `pthread_cond_wait`) has no step: the thread function
returns `none`.
-/

set_option linter.all false

/-! ## `leitor_escritor.c` -/

namespace LeitorEscritor

/-- Number of reader threads (`#define NUM_LEIT 20`). -/
def NUM_LEIT : Nat := 20
/-- Number of writer threads (`#define NUM_ESCR 5`). -/
def NUM_ESCR : Nat := 5
/-- Modulus of `unsigned int` arithmetic, `2 ^ 32`. -/
def UINT_MOD : Nat := 4294967296

/-- Program counter of a `leitor` thread.  `W65` is "suspended inside
`pthread_cond_wait` (line 65)"; `R65` is "woken, re-acquiring `inanicao_m`
before `pthread_cond_wait` returns". -/
inductive LeitorPc where
  | L55 | L61 | W65 | R65 | L68 | L71 | L73 | L76 | L79 | L82 | L85 | L87 | L90 | L93
  deriving DecidableEq, Repr

/-- Program counter of an `escritor` thread. -/
inductive EscritorPc where
  | L106 | L113 | L125 | L128 | L131 | L134 | L137 | L143 | L146 | L150
  deriving DecidableEq, Repr

/-- Shared state of `leitor_escritor.c`.  Every mutex is a binary lock (`true`
is locked); `mutex_m` is locked by the first reader and unlocked by the last
one, which may be another thread.  `leitores[i]` and `escritores[k]` are the
program counters of reader `i` and writer `k`. -/
structure State where
  num_leitores : Nat
  locket_flag : Nat
  critico : Nat
  mutex_m : Bool
  leitura_m : Bool
  inanicao_m : Bool
  leitores : List LeitorPc
  escritores : List EscritorPc
  deriving DecidableEq, Repr

/-- State after `main` has initialised the locks and created every thread
(lines 167-186): the globals hold their initialisers (lines 41-43). -/
def init : State where
  num_leitores := 0
  locket_flag := 0
  critico := 0
  mutex_m := false
  leitura_m := false
  inanicao_m := false
  leitores := List.replicate NUM_LEIT .L55
  escritores := List.replicate NUM_ESCR .L106

/-- Move reader `i` to program counter `pc`. -/
@[reducible] def State.gotoL (s : State) (i : Nat) (pc : LeitorPc) : State :=
  { s with leitores := s.leitores.set i pc }

/-- Move writer `k` to program counter `pc`. -/
@[reducible] def State.gotoE (s : State) (k : Nat) (pc : EscritorPc) : State :=
  { s with escritores := s.escritores.set k pc }

/-- Effect of `pthread_cond_broadcast(&anti_inanicao_cond)`: every reader
suspended in the wait of line 65 is woken. -/
def wakeAll (l : List LeitorPc) : List LeitorPc :=
  l.map fun pc => if pc = .W65 then .R65 else pc

/-- One step of `leitor` (lines 46-95) for reader `i`. -/
def leitor (s : State) (i : Nat) : Option State :=
  match s.leitores[i]? with
  | none => none
  | some .L55 =>
      -- pthread_mutex_lock(&inanicao_m)
      if s.inanicao_m = false then
        some ({ s with inanicao_m := true }.gotoL i .L61)
      else none
  | some .L61 =>
      -- while (locket_flag): body enters pthread_cond_wait, which releases inanicao_m
      if s.locket_flag ≠ 0 then
        some ({ s with inanicao_m := false }.gotoL i .W65)
      else some (s.gotoL i .L68)
  | some .W65 => none
  | some .R65 =>
      -- pthread_cond_wait re-acquires inanicao_m before returning to the test
      if s.inanicao_m = false then
        some ({ s with inanicao_m := true }.gotoL i .L61)
      else none
  | some .L68 =>
      -- pthread_mutex_unlock(&inanicao_m)
      some ({ s with inanicao_m := false }.gotoL i .L71)
  | some .L71 =>
      -- pthread_mutex_lock(&leitura_m)
      if s.leitura_m = false then
        some ({ s with leitura_m := true }.gotoL i .L73)
      else none
  | some .L73 =>
      -- if (++num_leitores == 1)
      let n := (s.num_leitores + 1) % UINT_MOD
      some ({ s with num_leitores := n }.gotoL i (if n = 1 then .L76 else .L79))
  | some .L76 =>
      -- pthread_mutex_lock(&mutex_m)
      if s.mutex_m = false then
        some ({ s with mutex_m := true }.gotoL i .L79)
      else none
  | some .L79 =>
      -- pthread_mutex_unlock(&leitura_m)
      some ({ s with leitura_m := false }.gotoL i .L82)
  | some .L82 =>
      -- printf("Ler critico: ...", critico, ...)
      some (s.gotoL i .L85)
  | some .L85 =>
      -- pthread_mutex_lock(&leitura_m)
      if s.leitura_m = false then
        some ({ s with leitura_m := true }.gotoL i .L87)
      else none
  | some .L87 =>
      -- if (--num_leitores == 0)
      let n := (s.num_leitores + UINT_MOD - 1) % UINT_MOD
      some ({ s with num_leitores := n }.gotoL i (if n = 0 then .L90 else .L93))
  | some .L90 =>
      -- pthread_mutex_unlock(&mutex_m)
      some ({ s with mutex_m := false }.gotoL i .L93)
  | some .L93 =>
      -- pthread_mutex_unlock(&leitura_m), then back to the top of while (1)
      some ({ s with leitura_m := false }.gotoL i .L55)

/-- One step of `escritor` (lines 97-152) for writer `k`; `rnd` is the value
returned by `rand()` at line 131. -/
def escritor (s : State) (k : Nat) (rnd : Nat) : Option State :=
  match s.escritores[k]? with
  | none => none
  | some .L106 =>
      -- pthread_mutex_lock(&inanicao_m)
      if s.inanicao_m = false then
        some ({ s with inanicao_m := true }.gotoE k .L113)
      else none
  | some .L113 =>
      -- locket_flag++
      some ({ s with locket_flag := (s.locket_flag + 1) % UINT_MOD }.gotoE k .L125)
  | some .L125 =>
      -- pthread_mutex_lock(&mutex_m), still holding inanicao_m
      if s.mutex_m = false then
        some ({ s with mutex_m := true }.gotoE k .L128)
      else none
  | some .L128 =>
      -- pthread_mutex_unlock(&inanicao_m)
      some ({ s with inanicao_m := false }.gotoE k .L131)
  | some .L131 =>
      -- critico = rand() % 99 + 1
      some ({ s with critico := rnd % 99 + 1 }.gotoE k .L134)
  | some .L134 =>
      -- pthread_mutex_unlock(&mutex_m)
      some ({ s with mutex_m := false }.gotoE k .L137)
  | some .L137 =>
      -- pthread_mutex_lock(&inanicao_m)
      if s.inanicao_m = false then
        some ({ s with inanicao_m := true }.gotoE k .L143)
      else none
  | some .L143 =>
      -- if (--locket_flag == 0)
      let n := (s.locket_flag + UINT_MOD - 1) % UINT_MOD
      some ({ s with locket_flag := n }.gotoE k (if n = 0 then .L146 else .L150))
  | some .L146 =>
      -- pthread_cond_broadcast(&anti_inanicao_cond)
      some ({ s with leitores := wakeAll s.leitores }.gotoE k .L150)
  | some .L150 =>
      -- pthread_mutex_unlock(&inanicao_m), then back to the top of while (1)
      some ({ s with inanicao_m := false }.gotoE k .L106)

/-- Spurious wake-up of reader `i` from `pthread_cond_wait` (allowed by POSIX). -/
def spurious (s : State) (i : Nat) : Option State :=
  match s.leitores[i]? with
  | some .W65 => some (s.gotoL i .R65)
  | _ => none

/-- Scheduler choices: which thread runs next (with the value `rand()` returns
to a writer), or which suspended reader wakes spuriously. -/
inductive Action where
  | leitor (i : Nat)
  | escritor (k : Nat) (rnd : Nat)
  | spurious (i : Nat)
  deriving DecidableEq, Repr

/-- One step of the whole program. -/
def step (s : State) : Action → Option State
  | .leitor i => leitor s i
  | .escritor k rnd => escritor s k rnd
  | .spurious i => spurious s i

/-- Run a schedule; `none` when some chosen step is not enabled. -/
def exec (s : State) : List Action → Option State
  | [] => some s
  | a :: as => (step s a).bind fun s' => exec s' as

/-- States reachable from `init` under some interleaving. -/
def Reachable (s : State) : Prop := ∃ tr, exec init tr = some s

/-- Reader at its read of `critico` (line 82). -/
def atRead (pc : LeitorPc) : Bool := pc = .L82

/-- Writer in its write section: after its lock of `mutex_m` (line 125) has
succeeded and before its unlock (line 134) has executed. -/
def inWrite (pc : EscritorPc) : Bool := pc = .L128 ∨ pc = .L131 ∨ pc = .L134

/-- Writer counted in `locket_flag`: it has executed `locket_flag++` (line 113)
and has not yet executed `--locket_flag` (line 143). -/
def registered (pc : EscritorPc) : Bool :=
  pc = .L125 ∨ pc = .L128 ∨ pc = .L131 ∨ pc = .L134 ∨ pc = .L137 ∨ pc = .L143

/-- Reader that has not left the gate loop of lines 55-66: it is before the
lock of line 55, at the test of line 61, or inside the wait of line 65. -/
def preGate (pc : LeitorPc) : Bool :=
  pc = .L55 ∨ pc = .L61 ∨ pc = .W65 ∨ pc = .R65

/-- Reader on whose behalf `mutex_m` is held: it has passed the lock of line 76
(or found `num_leitores` above 1 at line 73) and the unlock of line 90 has not
yet been executed for it. -/
def admitted (pc : LeitorPc) : Bool :=
  pc = .L79 ∨ pc = .L82 ∨ pc = .L85 ∨ pc = .L87 ∨ pc = .L90

/-- Writer `k` is registered in state `s`. -/
def registeredAt (k : Nat) (s : State) : Bool :=
  match s.escritores[k]? with
  | some pc => registered pc
  | none => false

/-- Run a schedule as long as `p` holds after every step; `none` when a step is
not enabled or leads to a state where `p` fails. -/
def execWhile (p : State → Bool) (s : State) : List Action → Option State
  | [] => some s
  | a :: as => (step s a).bind fun s' => if p s' then execWhile p s' as else none

/-- Number of readers at program counter `pc`. -/
@[reducible] def nL (s : State) (pc : LeitorPc) : Nat := s.leitores.count pc

/-- Number of writers at program counter `pc`. -/
@[reducible] def nE (s : State) (pc : EscritorPc) : Nat := s.escritores.count pc

/-- Inductive invariant of `leitor_escritor.c`, stated on the number of threads
at each program counter. -/
structure Inv (s : State) : Prop where
  lenL : s.leitores.length = NUM_LEIT
  lenE : s.escritores.length = NUM_ESCR
  leitura : nL s .L73 + nL s .L76 + nL s .L79 + nL s .L87 + nL s .L90 + nL s .L93
    = s.leitura_m.toNat
  inanicao : nL s .L61 + nL s .L68 + nE s .L113 + nE s .L125 + nE s .L128 + nE s .L143
    + nE s .L146 + nE s .L150 = s.inanicao_m.toNat
  cnt : s.num_leitores = nL s .L76 + nL s .L79 + nL s .L82 + nL s .L85 + nL s .L87
  flag : s.locket_flag = nE s .L125 + nE s .L128 + nE s .L131 + nE s .L134 + nE s .L137
    + nE s .L143
  l76 : 1 ≤ nL s .L76 → s.num_leitores = 1
  l90 : 1 ≤ nL s .L90 → s.num_leitores = 0
  l68 : 1 ≤ nL s .L68 → s.locket_flag = 0
  mtx1 : nE s .L128 + nE s .L131 + nE s .L134 ≤ 1
  mtx2 : nE s .L128 + nE s .L131 + nE s .L134 = 0
    ∨ nL s .L79 + nL s .L82 + nL s .L85 + nL s .L87 + nL s .L90 = 0
  mtx3 : s.mutex_m.toNat = 0 ↔ nE s .L128 + nE s .L131 + nE s .L134
    + (nL s .L79 + nL s .L82 + nL s .L85 + nL s .L87 + nL s .L90) = 0

/-- Schedule in which reader 3 passes the gate, writer 0 then registers and
locks `mutex_m`, and reader 3 goes on to `++num_leitores`. -/
def blockedReaderSchedule : List Action :=
  [.leitor 3, .leitor 3, .leitor 3, .escritor 0 7, .escritor 0 7, .escritor 0 7,
   .leitor 3, .leitor 3]

/-- State reached by `blockedReaderSchedule`: writer 0 holds `mutex_m`, reader 3
has counted itself and is blocked at line 76. -/
def blockedReaderState : State :=
  { num_leitores := 1, locket_flag := 1, critico := 0, mutex_m := true, leitura_m := true,
    inanicao_m := true,
    leitores := (List.replicate NUM_LEIT LeitorPc.L55).set 3 .L76,
    escritores := (List.replicate NUM_ESCR EscritorPc.L106).set 0 .L128 }

/-- State in which writer 0 has executed `locket_flag++` and no reader has yet
reached the gate. -/
def writerFirstState : State :=
  { num_leitores := 0, locket_flag := 1, critico := 0, mutex_m := false, leitura_m := false,
    inanicao_m := true,
    leitores := List.replicate NUM_LEIT LeitorPc.L55,
    escritores := (List.replicate NUM_ESCR EscritorPc.L106).set 0 .L125 }

/-- Schedule that leads to `writerFirstState`. -/
def writerFirstSchedule : List Action := [.escritor 0 7, .escritor 0 7]

/-- Schedule run from `writerFirstState`: readers 0 and 1 reach the gate while
writer 0 writes. -/
def gateSchedule : List Action :=
  [.escritor 0 7, .escritor 0 7, .leitor 0, .leitor 0, .leitor 1, .escritor 0 7]

/-- State reached from `writerFirstState` by `gateSchedule`. -/
def gateState : State :=
  { num_leitores := 0, locket_flag := 1, critico := 8, mutex_m := true, leitura_m := false,
    inanicao_m := true,
    leitores := ((List.replicate NUM_LEIT LeitorPc.L55).set 0 .W65).set 1 .L61,
    escritores := (List.replicate NUM_ESCR EscritorPc.L106).set 0 .L134 }

/-- Reader that has passed the test of line 61 and has not yet executed
`++num_leitores` (line 73). -/
def pending (pc : LeitorPc) : Bool := pc = .L68 ∨ pc = .L71 ∨ pc = .L73

/-- Reader that has passed the test of line 61 and for which the unlock of
`mutex_m` (line 90) has not yet been executed: a writer may wait on `mutex_m`
behind such a reader. -/
def pastGate (pc : LeitorPc) : Bool :=
  pc = .L68 ∨ pc = .L71 ∨ pc = .L73 ∨ pc = .L76 ∨ pc = .L79 ∨ pc = .L82 ∨ pc = .L85
    ∨ pc = .L87 ∨ pc = .L90

/-- Test `locket_flag != 0`. -/
def flagSet (s : State) : Bool := decide (s.locket_flag ≠ 0)

/-- Schedule in which reader 3 passes the gate and locks `leitura_m` after
writer 0 has executed `locket_flag++`. -/
def lateSchedule : List Action :=
  [.leitor 3, .leitor 3, .leitor 3, .escritor 0 7, .escritor 0 7, .leitor 3]

/-- State reached by `lateSchedule`: writer 0 is registered (`locket_flag` is 1)
and reader 3 stands at `++num_leitores`. -/
def lateState : State :=
  { num_leitores := 0, locket_flag := 1, critico := 0, mutex_m := false, leitura_m := true,
    inanicao_m := true,
    leitores := (List.replicate NUM_LEIT LeitorPc.L55).set 3 .L73,
    escritores := (List.replicate NUM_ESCR EscritorPc.L106).set 0 .L125 }

/-- State two steps of reader 3 after `lateState`: reader 3 has counted itself
and locked `mutex_m`; writer 0 stands at its lock of `mutex_m`. -/
def aheadState : State :=
  { num_leitores := 1, locket_flag := 1, critico := 0, mutex_m := true, leitura_m := true,
    inanicao_m := true,
    leitores := (List.replicate NUM_LEIT LeitorPc.L55).set 3 .L79,
    escritores := (List.replicate NUM_ESCR EscritorPc.L106).set 0 .L125 }

/-- Schedule run from `lateState`: reader 3 reads and leaves, and comes back to
the gate together with reader 5. -/
def cohortSchedule : List Action :=
  [.leitor 3, .leitor 3, .leitor 3, .leitor 3, .leitor 3, .leitor 3, .leitor 3, .leitor 3,
   .escritor 0 7, .escritor 0 7, .leitor 3, .leitor 3, .leitor 5, .leitor 5]

/-- State reached from `lateState` by `cohortSchedule`. -/
def cohortState : State :=
  { num_leitores := 0, locket_flag := 1, critico := 0, mutex_m := true, leitura_m := false,
    inanicao_m := false,
    leitores := ((List.replicate NUM_LEIT LeitorPc.L55).set 3 .W65).set 5 .W65,
    escritores := (List.replicate NUM_ESCR EscritorPc.L106).set 0 .L131 }

/-- Writer that has locked `inanicao_m` at line 106 and has not yet locked
`mutex_m` (line 125). -/
def entering (pc : EscritorPc) : Bool := pc = .L113 ∨ pc = .L125

/-- Writer that has locked `mutex_m` (line 125) and has not yet written
`critico` (line 131). -/
def aboutToWrite (pc : EscritorPc) : Bool := pc = .L128 ∨ pc = .L131

/-- State with two history variables: `acquired` lists the writers in the order
in which their lock of `inanicao_m` at line 106 succeeded, `wrote` lists them
in the order of their writes of `critico` (line 131). -/
structure Logged where
  st : State
  acquired : List Nat
  wrote : List Nat
  deriving DecidableEq, Repr

/-- Initial state with empty histories. -/
def initLogged : Logged := { st := init, acquired := [], wrote := [] }

/-- One step of the program, recorded in the histories. -/
def stepLogged (l : Logged) (a : Action) : Option Logged :=
  match step l.st a with
  | none => none
  | some s' =>
    match a with
    | .escritor k _ =>
      match l.st.escritores[k]? with
      | some .L106 => some { st := s', acquired := l.acquired ++ [k], wrote := l.wrote }
      | some .L131 => some { st := s', acquired := l.acquired, wrote := l.wrote ++ [k] }
      | _ => some { st := s', acquired := l.acquired, wrote := l.wrote }
    | _ => some { st := s', acquired := l.acquired, wrote := l.wrote }

/-- Run a schedule, recording the histories. -/
def execLogged (l : Logged) : List Action → Option Logged
  | [] => some l
  | a :: as => (stepLogged l a).bind fun l' => execLogged l' as

/-- Relation between the histories and the program counters of the writers:
the writes are the first acquisitions, in the same order; the acquisitions not
yet followed by a write are those of the writer about to write, if any, and
then of the writer entering, if any. -/
structure LogInv (e : List EscritorPc) (a w : List Nat) : Prop where
  pre : a.take w.length = w
  len : a.length = w.length + e.countP aboutToWrite + e.countP entering
  fst : ∀ (j : Nat) (pc : EscritorPc), e[j]? = some pc → aboutToWrite pc = true →
    a[w.length]? = some j
  snd : ∀ (j : Nat) (pc : EscritorPc), e[j]? = some pc → entering pc = true →
    a[w.length + e.countP aboutToWrite]? = some j

/-- Schedule in which writer 3 and then writer 1 lock `inanicao_m` and write,
and writer 4 then locks `inanicao_m`. -/
def writersSchedule : List Action :=
  [.escritor 3 7, .escritor 3 7, .escritor 3 7, .escritor 3 7, .escritor 1 8, .escritor 1 8,
   .escritor 3 7, .escritor 3 7, .escritor 1 8, .escritor 1 8, .escritor 1 8,
   .escritor 4 9]

/-- Logged state reached by `writersSchedule`. -/
def writersState : Logged :=
  { st := { num_leitores := 0, locket_flag := 2, critico := 9, mutex_m := true,
            leitura_m := false, inanicao_m := true,
            leitores := List.replicate NUM_LEIT LeitorPc.L55,
            escritores := [.L106, .L134, .L106, .L137, .L113] },
    acquired := [3, 1, 4], wrote := [3, 1] }

end LeitorEscritor

/-! ## `jantar_dos_filosofos.c` -/

namespace JantarDosFilosofos

/-- Number of philosophers (`#define NUM_FILOSOFOS 5`). -/
def NUM_FILOSOFOS : Nat := 5
/-- Meals each thread takes before it ends (`#define LIMIT_JANTAS 10`). -/
def LIMIT_JANTAS : Nat := 10
/-- Size in bytes of `size_t` (LP64). -/
def SIZEOF_SIZE_T : Nat := 8
/-- Modulus of `size_t` arithmetic, `2 ^ 64`. -/
def SIZE_MOD : Nat := 18446744073709551616

/-- Value of an `n`-byte little-endian word after `memset` has stored the byte
`c` in each of its bytes. -/
def memsetWord (c : Nat) : Nat → Nat
  | 0 => 0
  | n + 1 => c % 256 + 256 * memsetWord c n

/-- Program counter of a `jantar` thread.  `W91` is "suspended inside
`pthread_cond_wait` (line 91)", `R91` is "woken, re-acquiring `mutex_m`",
`L147` is "out of the `while (1)` loop". -/
inductive JantarPc where
  | L82 | L88 | W91 | R91 | L94 | L99 | L106 | L109 | L111 | L115 | L118 | L120 | L125
  | L127 | L129 | L134 | L136 | L138 | L140 | L143 | L147
  deriving DecidableEq, Repr

/-- Per-thread data of a `jantar` thread: its program counter, its local
variable `jantares`, and a history variable `held`, the hashis for which
`pega_hashi` has returned 1 to this thread and which it has not yet passed to
`devolver_hashi`. -/
structure Filosofo where
  pc : JantarPc
  jantares : Nat
  held : List Nat
  deriving DecidableEq, Repr

/-- Shared state of `jantar_dos_filosofos.c`; `filosofos[i]` is the thread
created with `pos_filosofo[i] = i`. -/
structure State where
  mutex_m : Bool
  hashi : List Nat
  filosofos : List Filosofo
  deriving DecidableEq, Repr

/-- State after `main` has run `memset(&hashi, 1, sizeof(hashi))` (line 163),
initialised the lock and created the threads (lines 166-179). -/
def init : State where
  mutex_m := false
  hashi := List.replicate NUM_FILOSOFOS (memsetWord 1 SIZEOF_SIZE_T)
  filosofos := List.replicate NUM_FILOSOFOS { pc := .L82, jantares := 0, held := [] }

/-- Function `pega_hashi` (lines 48-56): the new vector and the return value. -/
def pega_hashi (hashi : List Nat) (pos_filosofo : Nat) : List Nat × Nat :=
  if hashi.getD pos_filosofo 0 ≠ 0 then (hashi.set pos_filosofo 0, 1) else (hashi, 0)

/-- Function `devolver_hashi` (lines 59-62). -/
def devolver_hashi (hashi : List Nat) (pos_filosofo : Nat) : List Nat :=
  hashi.set pos_filosofo 1

/-- Effect of `pthread_cond_signal(&hashi_cond[j])`: thread `j` is the only one
that ever waits on `hashi_cond[j]`; it is woken if it is suspended there. -/
def signal (l : List Filosofo) (j : Nat) : List Filosofo :=
  match l[j]? with
  | some f => if f.pc = .W91 then l.set j { f with pc := .R91 } else l
  | none => l

/-- One step of `jantar` (lines 71-148) for philosopher `i`.  The statements
executed in one step lie inside one critical section of `mutex_m`. -/
def jantar (s : State) (i : Nat) : Option State :=
  match s.filosofos[i]? with
  | none => none
  | some f =>
    let dir := (i + 1) % NUM_FILOSOFOS
    match f.pc with
    | .L82 =>
        -- pthread_mutex_lock(&mutex_m)
        if s.mutex_m = false then
          some { s with mutex_m := true, filosofos := s.filosofos.set i { f with pc := .L88 } }
        else none
    | .L88 =>
        -- while (pega_hashi(i) == 0): body enters pthread_cond_wait, releasing mutex_m
        let r := pega_hashi s.hashi i
        if r.2 = 0 then
          some { s with mutex_m := false, hashi := r.1,
                        filosofos := s.filosofos.set i { f with pc := .W91 } }
        else
          some { s with hashi := r.1,
                        filosofos := s.filosofos.set i { f with pc := .L94, held := i :: f.held } }
    | .W91 => none
    | .R91 =>
        -- pthread_cond_wait re-acquires mutex_m before returning to the test
        if s.mutex_m = false then
          some { s with mutex_m := true, filosofos := s.filosofos.set i { f with pc := .L88 } }
        else none
    | .L94 =>
        -- pthread_mutex_unlock(&mutex_m)
        some { s with mutex_m := false, filosofos := s.filosofos.set i { f with pc := .L99 } }
    | .L99 =>
        -- pthread_mutex_lock(&mutex_m)
        if s.mutex_m = false then
          some { s with mutex_m := true, filosofos := s.filosofos.set i { f with pc := .L106 } }
        else none
    | .L106 =>
        -- if (pega_hashi((i + 1) % NUM_FILOSOFOS) == 0)
        let r := pega_hashi s.hashi dir
        if r.2 = 0 then
          some { s with hashi := r.1, filosofos := s.filosofos.set i { f with pc := .L109 } }
        else
          some { s with hashi := r.1,
                        filosofos := s.filosofos.set i { f with pc := .L115, held := dir :: f.held } }
    | .L109 =>
        -- devolver_hashi(i)
        some { s with hashi := devolver_hashi s.hashi i,
                      filosofos := s.filosofos.set i { f with pc := .L111, held := f.held.erase i } }
    | .L111 =>
        -- pthread_mutex_unlock(&mutex_m); continue
        some { s with mutex_m := false, filosofos := s.filosofos.set i { f with pc := .L82 } }
    | .L115 =>
        -- pthread_mutex_unlock(&mutex_m)
        some { s with mutex_m := false, filosofos := s.filosofos.set i { f with pc := .L118 } }
    | .L118 =>
        -- jantares++
        some { s with filosofos :=
          s.filosofos.set i { f with pc := .L120, jantares := (f.jantares + 1) % SIZE_MOD } }
    | .L120 =>
        -- printf(...), sleep(TEMPO_COMER)
        some { s with filosofos := s.filosofos.set i { f with pc := .L125 } }
    | .L125 =>
        -- pthread_mutex_lock(&mutex_m)
        if s.mutex_m = false then
          some { s with mutex_m := true, filosofos := s.filosofos.set i { f with pc := .L127 } }
        else none
    | .L127 =>
        -- devolver_hashi(i)
        some { s with hashi := devolver_hashi s.hashi i,
                      filosofos := s.filosofos.set i { f with pc := .L129, held := f.held.erase i } }
    | .L129 =>
        -- pthread_mutex_unlock(&mutex_m)
        some { s with mutex_m := false, filosofos := s.filosofos.set i { f with pc := .L134 } }
    | .L134 =>
        -- pthread_mutex_lock(&mutex_m)
        if s.mutex_m = false then
          some { s with mutex_m := true, filosofos := s.filosofos.set i { f with pc := .L136 } }
        else none
    | .L136 =>
        -- devolver_hashi((i + 1) % NUM_FILOSOFOS)
        some { s with hashi := devolver_hashi s.hashi dir,
                      filosofos := s.filosofos.set i { f with pc := .L138, held := f.held.erase dir } }
    | .L138 =>
        -- pthread_cond_signal(&hashi_cond[(i + 1) % NUM_FILOSOFOS])
        some { s with filosofos := signal (s.filosofos.set i { f with pc := .L140 }) dir }
    | .L140 =>
        -- pthread_mutex_unlock(&mutex_m)
        some { s with mutex_m := false, filosofos := s.filosofos.set i { f with pc := .L143 } }
    | .L143 =>
        -- if (jantares == LIMIT_JANTAS) break
        some { s with filosofos :=
          s.filosofos.set i { f with pc := if f.jantares = LIMIT_JANTAS then .L147 else .L82 } }
    | .L147 => none

/-- Spurious wake-up of philosopher `i` from `pthread_cond_wait` (allowed by POSIX). -/
def spurious (s : State) (i : Nat) : Option State :=
  match s.filosofos[i]? with
  | some f =>
      if f.pc = .W91 then some { s with filosofos := s.filosofos.set i { f with pc := .R91 } }
      else none
  | none => none

/-- Scheduler choices: which thread runs next, or which suspended thread wakes
spuriously. -/
inductive Action where
  | jantar (i : Nat)
  | spurious (i : Nat)
  deriving DecidableEq, Repr

/-- One step of the whole program. -/
def step (s : State) : Action → Option State
  | .jantar i => jantar s i
  | .spurious i => spurious s i

/-- Run a schedule; `none` when some chosen step is not enabled. -/
def exec (s : State) : List Action → Option State
  | [] => some s
  | a :: as => (step s a).bind fun s' => exec s' as

/-- States reachable from `init` under some interleaving. -/
def Reachable (s : State) : Prop := ∃ tr, exec init tr = some s

/-- Thread between its `jantares++` (line 118) and its release of the left
hashi (line 127): the increment has been executed, `devolver_hashi(i)` not yet. -/
def eating (pc : JantarPc) : Bool := pc = .L120 ∨ pc = .L125 ∨ pc = .L127

/-- Hashis a thread `k` at program counter `pc` has taken and not given back. -/
def heldAt (k : Nat) : JantarPc → List Nat
  | .L94 | .L99 | .L106 | .L109 => [k]
  | .L115 | .L118 | .L120 | .L125 | .L127 => [(k + 1) % NUM_FILOSOFOS, k]
  | .L129 | .L134 | .L136 => [(k + 1) % NUM_FILOSOFOS]
  | _ => []

/-- Inductive invariant of `jantar_dos_filosofos.c`. -/
structure Inv (s : State) : Prop where
  lenH : s.hashi.length = NUM_FILOSOFOS
  lenF : s.filosofos.length = NUM_FILOSOFOS
  held : ∀ (k : Nat) (f : Filosofo), s.filosofos[k]? = some f → f.held = heldAt k f.pc
  one : ∀ i : Nat, i < NUM_FILOSOFOS →
    s.filosofos.countP (fun f => decide (i ∈ f.held))
      + (if s.hashi.getD i 0 = 0 then 0 else 1) = 1
  ini : ∀ (i : Nat) (f : Filosofo), s.filosofos[i]? = some f →
    s.hashi.getD i 0 = 0 ∨ s.hashi.getD i 0 = 1 ∨ f.jantares = 0
  fim : ∀ (k : Nat) (f : Filosofo), s.filosofos[k]? = some f → f.pc = .L147 →
    f.jantares = LIMIT_JANTAS

/-- Schedule in which the philosophers take their ten meals one after the
other (a meal is 16 steps of the thread). -/
def sequentialSchedule : List Action :=
  List.replicate 160 (.jantar 0) ++ List.replicate 160 (.jantar 1)
    ++ List.replicate 160 (.jantar 2) ++ List.replicate 160 (.jantar 3)
    ++ List.replicate 160 (.jantar 4)

/-- State in which every thread has left its loop after `sequentialSchedule`. -/
def finalState : State :=
  { mutex_m := false, hashi := List.replicate NUM_FILOSOFOS 1,
    filosofos := List.replicate NUM_FILOSOFOS { pc := .L147, jantares := 10, held := [] } }

/-- State after philosopher 0 has locked `mutex_m` and taken its left hashi:
it stands at the unlock of line 94. -/
def leftTakenState : State :=
  { mutex_m := true,
    hashi := (List.replicate NUM_FILOSOFOS (memsetWord 1 SIZEOF_SIZE_T)).set 0 0,
    filosofos := (List.replicate NUM_FILOSOFOS { pc := .L82, jantares := 0, held := [] }).set 0
      { pc := .L94, jantares := 0, held := [0] } }

/-- Thread about to release `mutex_m` with `pthread_mutex_unlock` (lines 94,
111, 115, 129, 140). -/
def atUnlock (pc : JantarPc) : Bool :=
  pc = .L94 ∨ pc = .L111 ∨ pc = .L115 ∨ pc = .L129 ∨ pc = .L140

/-- Value of each entry of `hashi` after the `memset` of line 163:
`0x0101010101010101`. -/
def MEMSET_ONES : Nat := 72340172838076673

/-- Thread inside a critical section of `mutex_m`: its lock has succeeded and
its unlock (or the release by `pthread_cond_wait`) has not yet been executed. -/
def holdsMutex (pc : JantarPc) : Bool :=
  pc = .L88 ∨ pc = .L94 ∨ pc = .L106 ∨ pc = .L109 ∨ pc = .L111 ∨ pc = .L115 ∨ pc = .L127
    ∨ pc = .L129 ∨ pc = .L136 ∨ pc = .L138 ∨ pc = .L140

/-- Thread that has taken its right hashi (line 106) and has not yet passed it
to `devolver_hashi` (line 136). -/
def holdsRight (pc : JantarPc) : Bool :=
  pc = .L115 ∨ pc = .L118 ∨ pc = .L120 ∨ pc = .L125 ∨ pc = .L127 ∨ pc = .L129 ∨ pc = .L134
    ∨ pc = .L136

/-- Index of the philosopher whose right hashi is hashi `i`. -/
def vizinho (i : Nat) : Nat := (i + NUM_FILOSOFOS - 1) % NUM_FILOSOFOS

/-- Second part of the inductive invariant of `jantar_dos_filosofos.c`:
`mutex_m` is locked exactly when one thread is inside a critical section, and a
thread suspended on `hashi_cond[i]` finds `hashi[i]` at 0 unless its neighbour
stands between `devolver_hashi` (line 136) and the signal of line 138. -/
structure WaitInv (s : State) : Prop where
  mtx : s.filosofos.countP (fun f => holdsMutex f.pc) = s.mutex_m.toNat
  wait : ∀ (i : Nat) (f : Filosofo), s.filosofos[i]? = some f → f.pc = .W91 →
    s.hashi.getD i 0 = 0 ∨ ∃ g, s.filosofos[vizinho i]? = some g ∧ g.pc = .L138

/-- Schedule in which philosopher 0 takes both hashis, philosopher 1 finds its
left hashi taken and suspends, and philosopher 0 eats and gives both hashis
back, up to the `devolver_hashi` of line 136. -/
def returnSchedule : List Action :=
  List.replicate 6 (.jantar 0) ++ List.replicate 2 (.jantar 1) ++ List.replicate 7 (.jantar 0)

/-- State reached by `returnSchedule`: philosopher 0 stands at the signal of
line 138, philosopher 1 is suspended in the wait of line 91. -/
def returnedState : State :=
  { mutex_m := true,
    hashi := [1, 1, MEMSET_ONES, MEMSET_ONES, MEMSET_ONES],
    filosofos := [{ pc := .L138, jantares := 1, held := [] },
      { pc := .W91, jantares := 0, held := [] }, { pc := .L82, jantares := 0, held := [] },
      { pc := .L82, jantares := 0, held := [] }, { pc := .L82, jantares := 0, held := [] }] }

/-- Schedule in which philosopher 0 takes both hashis and philosopher 1 finds
its left hashi taken and suspends. -/
def waitSchedule : List Action :=
  List.replicate 6 (.jantar 0) ++ List.replicate 2 (.jantar 1)

/-- State reached by `waitSchedule`. -/
def waitState : State :=
  { mutex_m := false,
    hashi := [0, 0, MEMSET_ONES, MEMSET_ONES, MEMSET_ONES],
    filosofos := [{ pc := .L118, jantares := 0, held := [1, 0] },
      { pc := .W91, jantares := 0, held := [] }, { pc := .L82, jantares := 0, held := [] },
      { pc := .L82, jantares := 0, held := [] }, { pc := .L82, jantares := 0, held := [] }] }

end JantarDosFilosofos

/-! ## `consumidor_sem.c` -/

namespace ConsumidorSem

/-- Number of slots of `produtos` (`#define MAX_PROD 20`). -/
def MAX_PROD : Nat := 20
/-- Modulus of `size_t` arithmetic, `2 ^ 64`. -/
def SIZE_MOD : Nat := 18446744073709551616

/-- The other compile-time constants of the program. -/
structure Config where
  LIMIT_PROD : Nat
  NUM_PROD : Nat
  NUM_CONS : Nat
  deriving DecidableEq, Repr

/-- The constants of the source (`LIMIT_PROD 10`, `NUM_PROD 4`, `NUM_CONS 12`). -/
def config : Config := { LIMIT_PROD := 10, NUM_PROD := 4, NUM_CONS := 12 }

/-- Program counter of a `produtor` thread; `L88` is `pthread_exit`. -/
inductive ProdutorPc where
  | L65 | L68 | L71 | L78 | L81 | L85 | L88
  deriving DecidableEq, Repr

/-- Program counter of a `consumidor` thread; `L117` is `pthread_exit`. -/
inductive ConsumidorPc where
  | L104 | L107 | L110 | L115 | L117 | L123 | L129 | L132
  deriving DecidableEq, Repr

/-- Program counter of `main` once the threads are created; `L193` is past the
last join. -/
inductive MainPc where
  | L169 | L173 | L175 | L177 | L185 | L189 | L193
  deriving DecidableEq, Repr

/-- State of `consumidor_sem.c`.  `produtores[i]` and `prod_cont[i]` are the
program counter and the local counter of producer `i`, likewise for the
consumers; `main_i` is the loop variable of `main` in the loop of line 185.
`written` lists the values stored in `produtos` at line 71 and `consumed` the
values read from it at line 124, in the order of the critical sections: they
are history variables. -/
structure State where
  mutex_m : Bool
  prod_s : Nat
  cons_s : Nat
  produtos : List Nat
  len_cons : Nat
  len_prod : Nat
  fim_flag : Nat
  produtores : List ProdutorPc
  prod_cont : List Nat
  consumidores : List ConsumidorPc
  cons_cont : List Nat
  mainPc : MainPc
  main_i : Nat
  written : List Nat
  consumed : List Nat
  deriving DecidableEq, Repr

/-- State after `main` has initialised the lock and the semaphores and created
every thread (lines 147-165). -/
def init (cfg : Config) : State where
  mutex_m := false
  prod_s := MAX_PROD
  cons_s := 0
  produtos := List.replicate MAX_PROD 0
  len_cons := 0
  len_prod := 0
  fim_flag := 0
  produtores := List.replicate cfg.NUM_PROD .L65
  prod_cont := List.replicate cfg.NUM_PROD 0
  consumidores := List.replicate cfg.NUM_CONS .L104
  cons_cont := List.replicate cfg.NUM_CONS 0
  mainPc := .L169
  main_i := 0
  written := []
  consumed := []

/-- Move producer `i` to program counter `pc`. -/
@[reducible] def State.gotoP (s : State) (i : Nat) (pc : ProdutorPc) : State :=
  { s with produtores := s.produtores.set i pc }

/-- Move consumer `i` to program counter `pc`. -/
@[reducible] def State.gotoC (s : State) (i : Nat) (pc : ConsumidorPc) : State :=
  { s with consumidores := s.consumidores.set i pc }

/-- One step of `produtor` (lines 55-92) for producer `i`; `rnd` is the value
returned by `rand()` at line 71.  Lines 71-75 store the item and advance
`len_prod` in one step: both happen inside the critical section of `mutex_m`,
and no thread reads `produtos` or `len_prod` without holding `mutex_m`. -/
def produtor (cfg : Config) (s : State) (i : Nat) (rnd : Nat) : Option State :=
  match s.produtores[i]? with
  | none => none
  | some .L65 =>
      -- sem_wait(&prod_s)
      if 0 < s.prod_s then some ({ s with prod_s := s.prod_s - 1 }.gotoP i .L68) else none
  | some .L68 =>
      -- pthread_mutex_lock(&mutex_m)
      if s.mutex_m = false then some ({ s with mutex_m := true }.gotoP i .L71) else none
  | some .L71 =>
      -- produtos[len_prod] = rand() % 99 + 1; prod_cont++; len_prod = (len_prod + 1) % MAX_PROD
      some ({ s with
        produtos := s.produtos.set s.len_prod (rnd % 99 + 1)
        prod_cont := s.prod_cont.set i ((s.prod_cont.getD i 0 + 1) % SIZE_MOD)
        len_prod := (s.len_prod + 1) % MAX_PROD
        written := s.written ++ [rnd % 99 + 1] }.gotoP i .L78)
  | some .L78 =>
      -- sem_post(&cons_s)
      some ({ s with cons_s := s.cons_s + 1 }.gotoP i .L81)
  | some .L81 =>
      -- pthread_mutex_unlock(&mutex_m)
      some ({ s with mutex_m := false }.gotoP i .L85)
  | some .L85 =>
      -- if (prod_cont == LIMIT_PROD) pthread_exit(NULL)
      some (s.gotoP i (if s.prod_cont.getD i 0 = cfg.LIMIT_PROD then .L88 else .L65))
  | some .L88 => none

/-- One step of `consumidor` (lines 94-134) for consumer `i`.  Lines 123-126
read the item and advance `len_cons` in one step, inside the critical section. -/
def consumidor (s : State) (i : Nat) : Option State :=
  match s.consumidores[i]? with
  | none => none
  | some .L104 =>
      -- sem_wait(&cons_s)
      if 0 < s.cons_s then some ({ s with cons_s := s.cons_s - 1 }.gotoC i .L107) else none
  | some .L107 =>
      -- pthread_mutex_lock(&mutex_m)
      if s.mutex_m = false then some ({ s with mutex_m := true }.gotoC i .L110) else none
  | some .L110 =>
      -- if (len_cons == len_prod) { if (fim_flag) { ... exit ... } }
      if s.len_cons = s.len_prod ∧ s.fim_flag ≠ 0 then some (s.gotoC i .L115)
      else some (s.gotoC i .L123)
  | some .L115 =>
      -- pthread_mutex_unlock(&mutex_m); pthread_exit(NULL)
      some ({ s with mutex_m := false }.gotoC i .L117)
  | some .L117 => none
  | some .L123 =>
      -- cons_cont++; printf(..., produtos[len_cons], ...); len_cons = (len_cons + 1) % MAX_PROD
      some ({ s with
        cons_cont := s.cons_cont.set i ((s.cons_cont.getD i 0 + 1) % SIZE_MOD)
        consumed := s.consumed ++ [s.produtos.getD s.len_cons 0]
        len_cons := (s.len_cons + 1) % MAX_PROD }.gotoC i .L129)
  | some .L129 =>
      -- pthread_mutex_unlock(&mutex_m)
      some ({ s with mutex_m := false }.gotoC i .L132)
  | some .L132 =>
      -- sem_post(&prod_s)
      some ({ s with prod_s := s.prod_s + 1 }.gotoC i .L104)

/-- One step of `main` from the joins of line 169 on (lines 167-192). -/
def main (cfg : Config) (s : State) : Option State :=
  match s.mainPc with
  | .L169 =>
      -- for (...) pthread_join(prodT[i], NULL): returns once every producer has exited
      if s.produtores.all (fun pc => pc = .L88) then some { s with mainPc := .L173 } else none
  | .L173 =>
      -- pthread_mutex_lock(&mutex_m)
      if s.mutex_m = false then some { s with mutex_m := true, mainPc := .L175 } else none
  | .L175 =>
      -- fim_flag = 1
      some { s with fim_flag := 1, mainPc := .L177 }
  | .L177 =>
      -- pthread_mutex_unlock(&mutex_m); i = 0
      some { s with mutex_m := false, mainPc := .L185, main_i := 0 }
  | .L185 =>
      -- for (i = 0; i < NUM_CONS; i++) sem_post(&cons_s)
      if s.main_i < cfg.NUM_CONS then
        some { s with cons_s := s.cons_s + 1, main_i := s.main_i + 1 }
      else some { s with mainPc := .L189 }
  | .L189 =>
      -- for (...) pthread_join(consT[i], NULL): returns once every consumer has exited
      if s.consumidores.all (fun pc => pc = .L117) then some { s with mainPc := .L193 } else none
  | .L193 => none

/-- Scheduler choices: which thread runs next (with the value `rand()` returns
to a producer). -/
inductive Action where
  | produtor (i : Nat) (rnd : Nat)
  | consumidor (i : Nat)
  | main
  deriving DecidableEq, Repr

/-- One step of the whole program. -/
def step (cfg : Config) (s : State) : Action → Option State
  | .produtor i rnd => produtor cfg s i rnd
  | .consumidor i => consumidor s i
  | .main => main cfg s

/-- Run a schedule; `none` when some chosen step is not enabled. -/
def exec (cfg : Config) (s : State) : List Action → Option State
  | [] => some s
  | a :: as => (step cfg s a).bind fun s' => exec cfg s' as

/-- States reachable from `init cfg` under some interleaving. -/
def Reachable (cfg : Config) (s : State) : Prop := ∃ tr, exec cfg (init cfg) tr = some s

/-- Number of items written by producers and not yet read by any consumer. -/
def unread (s : State) : Nat := s.written.length - s.consumed.length

/-- Number of producers at program counter `pc`. -/
@[reducible] def nP (s : State) (pc : ProdutorPc) : Nat := s.produtores.count pc

/-- Number of consumers at program counter `pc`. -/
@[reducible] def nC (s : State) (pc : ConsumidorPc) : Nat := s.consumidores.count pc

/-- 1 when `main` holds `mutex_m` (lines 175-177), else 0. -/
def mainHolds : MainPc → Nat
  | .L175 | .L177 => 1
  | _ => 0

/-- 1 once `main` has executed `fim_flag = 1` (line 175), else 0. -/
def mainFlag : MainPc → Nat
  | .L177 | .L185 | .L189 | .L193 => 1
  | _ => 0

/-- 1 once `main` has reached the loop of line 185, else 0. -/
def mainLoop : MainPc → Nat
  | .L185 | .L189 | .L193 => 1
  | _ => 0

/-- Inductive invariant of `consumidor_sem.c`. -/
structure Inv (s : State) : Prop where
  mtx : nP s .L71 + nP s .L78 + nP s .L81 + nC s .L110 + nC s .L115 + nC s .L123
    + nC s .L129 + mainHolds s.mainPc = s.mutex_m.toNat
  free : s.prod_s + nP s .L68 + nP s .L71 + s.written.length + nC s .L129 + nC s .L132
    = MAX_PROD + s.consumed.length
  filled : s.cons_s + nC s .L107 + nC s .L110 + nC s .L123 + nC s .L115 + nC s .L117
    + s.consumed.length + nP s .L78 = s.written.length + s.main_i
  lenp : s.len_prod = s.written.length % MAX_PROD
  lenc : s.len_cons = s.consumed.length % MAX_PROD
  le : s.consumed.length ≤ s.written.length
  flag : s.fim_flag = mainFlag s.mainPc
  noflag : s.fim_flag = 0 → s.main_i + nC s .L115 + nC s .L117 = 0
  loop : mainLoop s.mainPc = 0 → s.main_i = 0
  rd : 1 ≤ nC s .L123 → s.consumed.length < s.written.length
  size : s.produtos.length = MAX_PROD
  slots : ∀ k : Nat, s.consumed.length ≤ k → k < s.written.length →
    s.produtos[k % MAX_PROD]? = s.written[k]?
  log : s.consumed = s.written.take s.consumed.length

/-- Ten productions of producer `i` (six steps each), every item with value 1. -/
def produceTen (i : Nat) : List Action := List.replicate 60 (.produtor i 0)

/-- Schedule in which producers 0 and 1 fill the vector, consumer 0 empties it,
producers 2 and 3 fill it again, `main` sets `fim_flag`, and consumer 1 then
passes `sem_wait(&cons_s)` and the test of line 110. -/
def fullBufferSchedule : List Action :=
  produceTen 0 ++ produceTen 1 ++ List.replicate 120 (.consumidor 0) ++ produceTen 2
    ++ produceTen 3 ++ List.replicate 4 .main ++ List.replicate 3 (.consumidor 1)

/-- State reached by `fullBufferSchedule`: consumer 1 has taken the exit branch
(it stands at line 115) and the twenty slots hold unread items. -/
def fullBufferExit : State :=
  { mutex_m := true, prod_s := 0, cons_s := 19, produtos := List.replicate 20 1,
    len_cons := 0, len_prod := 0, fim_flag := 1,
    produtores := List.replicate 4 .L88, prod_cont := List.replicate 4 10,
    consumidores := (List.replicate 12 ConsumidorPc.L104).set 1 .L115,
    cons_cont := (List.replicate 12 0).set 0 20,
    mainPc := .L185, main_i := 0,
    written := List.replicate 40 1, consumed := List.replicate 20 1 }

/-- Continuation of `fullBufferSchedule` to the end of the program: consumer 1
exits, `main` posts `cons_s` twelve times, every other consumer passes
`sem_wait`, takes the exit branch and exits, and `main` joins them. -/
def exitSchedule : List Action :=
  [.consumidor 1] ++ List.replicate 13 .main ++ List.replicate 4 (.consumidor 0)
    ++ List.replicate 4 (.consumidor 2) ++ List.replicate 4 (.consumidor 3)
    ++ List.replicate 4 (.consumidor 4) ++ List.replicate 4 (.consumidor 5)
    ++ List.replicate 4 (.consumidor 6) ++ List.replicate 4 (.consumidor 7)
    ++ List.replicate 4 (.consumidor 8) ++ List.replicate 4 (.consumidor 9)
    ++ List.replicate 4 (.consumidor 10) ++ List.replicate 4 (.consumidor 11) ++ [.main]

/-- State at the end of the program after `fullBufferSchedule ++ exitSchedule`. -/
def abandonedState : State :=
  { mutex_m := false, prod_s := 0, cons_s := 20, produtos := List.replicate 20 1,
    len_cons := 0, len_prod := 0, fim_flag := 1,
    produtores := List.replicate 4 .L88, prod_cont := List.replicate 4 10,
    consumidores := List.replicate 12 .L117,
    cons_cont := (List.replicate 12 0).set 0 20,
    mainPc := .L193, main_i := 12,
    written := List.replicate 40 1, consumed := List.replicate 20 1 }

/-- Constants of the scenario with one producer that writes three items and one
consumer. -/
def scenarioConfig : Config := { LIMIT_PROD := 3, NUM_PROD := 1, NUM_CONS := 1 }

/-- Complete run of the scenario: the producer writes 5, 12 and 99 (`rand()`
returns 4, 11 and 98), the consumer reads between the writes, `main` ends the
consumer. -/
def scenarioSchedule : List Action :=
  List.replicate 6 (.produtor 0 4) ++ List.replicate 6 (.consumidor 0)
    ++ List.replicate 6 (.produtor 0 11) ++ List.replicate 6 (.produtor 0 98)
    ++ List.replicate 12 (.consumidor 0) ++ List.replicate 6 .main
    ++ List.replicate 4 (.consumidor 0) ++ [.main]

/-- State at the end of `scenarioSchedule`. -/
def scenarioState : State :=
  { mutex_m := false, prod_s := 20, cons_s := 0,
    produtos := [5, 12, 99] ++ List.replicate 17 0,
    len_cons := 3, len_prod := 3, fim_flag := 1,
    produtores := [.L88], prod_cont := [3], consumidores := [.L117], cons_cont := [3],
    mainPc := .L193, main_i := 1, written := [5, 12, 99], consumed := [5, 12, 99] }

/-- Schedule after which one item is unread and consumer 0 stands at its read. -/
def readSchedule : List Action :=
  List.replicate 6 (.produtor 0 0) ++ List.replicate 3 (.consumidor 0)

/-- State reached by `readSchedule`. -/
def readState : State :=
  { mutex_m := true, prod_s := 19, cons_s := 0,
    produtos := (List.replicate 20 0).set 0 1,
    len_cons := 0, len_prod := 1, fim_flag := 0,
    produtores := List.replicate 4 .L65, prod_cont := (List.replicate 4 0).set 0 1,
    consumidores := (List.replicate 12 ConsumidorPc.L104).set 0 .L123,
    cons_cont := List.replicate 12 0,
    mainPc := .L169, main_i := 0, written := [1], consumed := [] }

/-- Number of producers that have passed `sem_wait(&prod_s)` (line 65) and not
yet executed `sem_post(&cons_s)` (line 78). -/
def betweenP (s : State) : Nat := nP s .L68 + nP s .L71 + nP s .L78

/-- Number of consumers that have passed `sem_wait(&cons_s)` (line 104) and
will execute `sem_post(&prod_s)` (line 132) in the same iteration. -/
def betweenC (s : State) : Nat :=
  nC s .L107 + nC s .L110 + nC s .L123 + nC s .L129 + nC s .L132

/-- Number of consumers that have taken the exit branch of lines 110-118 after
their `sem_wait(&cons_s)`. -/
def exited (s : State) : Nat := nC s .L115 + nC s .L117

/-- State after producer 0 has executed `sem_wait(&prod_s)`. -/
def waitedState : State :=
  { init config with prod_s := 19, produtores := (List.replicate 4 ProdutorPc.L65).set 0 .L68 }

/-- Schedule of the scenario with one producer and one consumer up to the end
of the loop of line 185: the three items are written and read, `main` sets
`fim_flag` and posts `cons_s` once. -/
def postedSchedule : List Action :=
  List.replicate 6 (.produtor 0 4) ++ List.replicate 6 (.consumidor 0)
    ++ List.replicate 6 (.produtor 0 11) ++ List.replicate 6 (.produtor 0 98)
    ++ List.replicate 12 (.consumidor 0) ++ List.replicate 6 .main

/-- State reached by `postedSchedule`. -/
def postedState : State :=
  { mutex_m := false, prod_s := 20, cons_s := 1,
    produtos := [5, 12, 99] ++ List.replicate 17 0,
    len_cons := 3, len_prod := 3, fim_flag := 1,
    produtores := [.L88], prod_cont := [3], consumidores := [.L104], cons_cont := [3],
    mainPc := .L189, main_i := 1, written := [5, 12, 99], consumed := [5, 12, 99] }

end ConsumidorSem

/-! ## `consumidor_cond.c` -/

namespace ConsumidorCond

/-- Number of slots of `produtos` (`#define MAX_PROD 21`); one of them stays
unused to tell a full vector from an empty one. -/
def MAX_PROD : Nat := 21
/-- Modulus of `size_t` arithmetic, `2 ^ 64`. -/
def SIZE_MOD : Nat := 18446744073709551616

/-- The other compile-time constants of the program. -/
structure Config where
  LIMIT_PROD : Nat
  NUM_PROD : Nat
  NUM_CONS : Nat
  deriving DecidableEq, Repr

/-- The constants of the source (`LIMIT_PROD 10`, `NUM_PROD 4`, `NUM_CONS 12`). -/
def config : Config := { LIMIT_PROD := 10, NUM_PROD := 4, NUM_CONS := 12 }

/-- Program counter of a `produtor` thread.  `W63` is "suspended inside
`pthread_cond_wait` (line 63)", `R63` is "woken, re-acquiring `mutex_m`", `L80`
is `pthread_exit`. -/
inductive ProdutorPc where
  | L59 | L62 | W63 | R63 | L66 | L73 | L76 | L78 | L80 | L85
  deriving DecidableEq, Repr

/-- Program counter of a `consumidor` thread.  `W116` is "suspended inside
`pthread_cond_wait` (line 116)", `R116` is "woken, re-acquiring `mutex_m`",
`L110` is `pthread_exit`. -/
inductive ConsumidorPc where
  | L98 | L101 | L104 | L105 | L107 | L108 | L110 | L114 | L116 | W116 | R116 | L120
  | L126 | L129
  deriving DecidableEq, Repr

/-- Program counter of `main` once the threads are created; `L189` is past the
last join. -/
inductive MainPc where
  | L166 | L169 | L170 | L171 | L179 | L181 | L183 | L187 | L189
  deriving DecidableEq, Repr

/-- State of `consumidor_cond.c`.  `produtores[i]` and `prod_cont[i]` are the
program counter and the local counter of producer `i`, likewise for the
consumers.  `written` lists the values stored in `produtos` at line 66 and
`consumed` the values read from it at line 121, in the order of the critical
sections: they are history variables. -/
structure State where
  mutex_m : Bool
  fim_m : Bool
  produtos : List Nat
  len_cons : Nat
  len_prod : Nat
  fim_flag : Nat
  produtores : List ProdutorPc
  prod_cont : List Nat
  consumidores : List ConsumidorPc
  cons_cont : List Nat
  mainPc : MainPc
  written : List Nat
  consumed : List Nat
  deriving DecidableEq, Repr

/-- State after `main` has initialised the locks and the condition variables
and created every thread (lines 145-162). -/
def init (cfg : Config) : State where
  mutex_m := false
  fim_m := false
  produtos := List.replicate MAX_PROD 0
  len_cons := 0
  len_prod := 0
  fim_flag := 0
  produtores := List.replicate cfg.NUM_PROD .L59
  prod_cont := List.replicate cfg.NUM_PROD 0
  consumidores := List.replicate cfg.NUM_CONS .L98
  cons_cont := List.replicate cfg.NUM_CONS 0
  mainPc := .L166
  written := []
  consumed := []

/-- Move producer `i` to program counter `pc`. -/
@[reducible] def State.gotoP (s : State) (i : Nat) (pc : ProdutorPc) : State :=
  { s with produtores := s.produtores.set i pc }

/-- Move consumer `i` to program counter `pc`. -/
@[reducible] def State.gotoC (s : State) (i : Nat) (pc : ConsumidorPc) : State :=
  { s with consumidores := s.consumidores.set i pc }

/-- Effect of `pthread_cond_signal(&cons_cond)` when the scheduler picks
consumer `j`: if `j` is suspended on `cons_cond` it is woken; if no consumer is
suspended nothing happens; any other choice is not a behaviour of the signal. -/
def signalCons (l : List ConsumidorPc) (j : Nat) : Option (List ConsumidorPc) :=
  if l[j]? = some .W116 then some (l.set j .R116)
  else if l.count .W116 = 0 then some l
  else none

/-- Effect of `pthread_cond_signal(&prod_cond)` when the scheduler picks
producer `j`. -/
def signalProd (l : List ProdutorPc) (j : Nat) : Option (List ProdutorPc) :=
  if l[j]? = some .W63 then some (l.set j .R63)
  else if l.count .W63 = 0 then some l
  else none

/-- Effect of `pthread_cond_broadcast(&cons_cond)`: every consumer suspended on
`cons_cond` is woken. -/
def broadcastCons (l : List ConsumidorPc) : List ConsumidorPc :=
  l.map fun pc => if pc = .W116 then .R116 else pc

/-- One step of `produtor` (lines 50-87) for producer `i`; `rnd` is the value
returned by `rand()` at line 66 and `wake` the consumer the signal of line 73
picks.  Lines 66-70 store the item and advance `len_prod` in one step: both
happen inside the critical section of `mutex_m`, and no thread reads `produtos`
or `len_prod` without holding `mutex_m`. -/
def produtor (cfg : Config) (s : State) (i : Nat) (rnd wake : Nat) : Option State :=
  match s.produtores[i]? with
  | none => none
  | some .L59 =>
      -- pthread_mutex_lock(&mutex_m)
      if s.mutex_m = false then some ({ s with mutex_m := true }.gotoP i .L62) else none
  | some .L62 =>
      -- while ((len_prod + 1) % MAX_PROD == len_cons) pthread_cond_wait(&prod_cond, &mutex_m)
      if (s.len_prod + 1) % MAX_PROD = s.len_cons then
        some ({ s with mutex_m := false }.gotoP i .W63)
      else some (s.gotoP i .L66)
  | some .W63 => none
  | some .R63 =>
      -- pthread_cond_wait re-acquires mutex_m before returning to the test
      if s.mutex_m = false then some ({ s with mutex_m := true }.gotoP i .L62) else none
  | some .L66 =>
      -- produtos[len_prod] = rand() % 99 + 1; prod_cont++; len_prod = (len_prod + 1) % MAX_PROD
      some ({ s with
        produtos := s.produtos.set s.len_prod (rnd % 99 + 1)
        prod_cont := s.prod_cont.set i ((s.prod_cont.getD i 0 + 1) % SIZE_MOD)
        len_prod := (s.len_prod + 1) % MAX_PROD
        written := s.written ++ [rnd % 99 + 1] }.gotoP i .L73)
  | some .L73 =>
      -- pthread_cond_signal(&cons_cond)
      match signalCons s.consumidores wake with
      | some l => some ({ s with consumidores := l }.gotoP i .L76)
      | none => none
  | some .L76 =>
      -- if (prod_cont == LIMIT_PROD)
      some (s.gotoP i (if s.prod_cont.getD i 0 = cfg.LIMIT_PROD then .L78 else .L85))
  | some .L78 =>
      -- pthread_mutex_unlock(&mutex_m); pthread_exit(NULL)
      some ({ s with mutex_m := false }.gotoP i .L80)
  | some .L80 => none
  | some .L85 =>
      -- pthread_mutex_unlock(&mutex_m)
      some ({ s with mutex_m := false }.gotoP i .L59)

/-- One step of `consumidor` (lines 89-131) for consumer `i`; `wake` is the
producer the signal of line 126 picks.  Lines 120-123 read the item and advance
`len_cons` in one step, inside the critical section. -/
def consumidor (s : State) (i : Nat) (wake : Nat) : Option State :=
  match s.consumidores[i]? with
  | none => none
  | some .L98 =>
      -- pthread_mutex_lock(&mutex_m)
      if s.mutex_m = false then some ({ s with mutex_m := true }.gotoC i .L101) else none
  | some .L101 =>
      -- while (len_cons == len_prod)
      if s.len_cons = s.len_prod then some (s.gotoC i .L104) else some (s.gotoC i .L120)
  | some .L104 =>
      -- pthread_mutex_lock(&fim_m)
      if s.fim_m = false then some ({ s with fim_m := true }.gotoC i .L105) else none
  | some .L105 =>
      -- if (fim_flag)
      if s.fim_flag ≠ 0 then some (s.gotoC i .L107) else some (s.gotoC i .L114)
  | some .L107 =>
      -- pthread_mutex_unlock(&fim_m)
      some ({ s with fim_m := false }.gotoC i .L108)
  | some .L108 =>
      -- pthread_mutex_unlock(&mutex_m); pthread_exit(NULL)
      some ({ s with mutex_m := false }.gotoC i .L110)
  | some .L110 => none
  | some .L114 =>
      -- pthread_mutex_unlock(&fim_m)
      some ({ s with fim_m := false }.gotoC i .L116)
  | some .L116 =>
      -- pthread_cond_wait(&cons_cond, &mutex_m): releases mutex_m and suspends
      some ({ s with mutex_m := false }.gotoC i .W116)
  | some .W116 => none
  | some .R116 =>
      -- pthread_cond_wait re-acquires mutex_m before returning to the test
      if s.mutex_m = false then some ({ s with mutex_m := true }.gotoC i .L101) else none
  | some .L120 =>
      -- cons_cont++; printf(..., produtos[len_cons], ...); len_cons = (len_cons + 1) % MAX_PROD
      some ({ s with
        cons_cont := s.cons_cont.set i ((s.cons_cont.getD i 0 + 1) % SIZE_MOD)
        consumed := s.consumed ++ [s.produtos.getD s.len_cons 0]
        len_cons := (s.len_cons + 1) % MAX_PROD }.gotoC i .L126)
  | some .L126 =>
      -- pthread_cond_signal(&prod_cond)
      match signalProd s.produtores wake with
      | some l => some ({ s with produtores := l }.gotoC i .L129)
      | none => none
  | some .L129 =>
      -- pthread_mutex_unlock(&mutex_m)
      some ({ s with mutex_m := false }.gotoC i .L98)

/-- One step of `main` from the joins of line 166 on (lines 164-187). -/
def main (s : State) : Option State :=
  match s.mainPc with
  | .L166 =>
      -- for (...) pthread_join(prodT[i], NULL): returns once every producer has exited
      if s.produtores.all (fun pc => pc = .L80) then some { s with mainPc := .L169 } else none
  | .L169 =>
      -- pthread_mutex_lock(&fim_m)
      if s.fim_m = false then some { s with fim_m := true, mainPc := .L170 } else none
  | .L170 =>
      -- fim_flag = 1
      some { s with fim_flag := 1, mainPc := .L171 }
  | .L171 =>
      -- pthread_mutex_unlock(&fim_m)
      some { s with fim_m := false, mainPc := .L179 }
  | .L179 =>
      -- pthread_mutex_lock(&mutex_m)
      if s.mutex_m = false then some { s with mutex_m := true, mainPc := .L181 } else none
  | .L181 =>
      -- pthread_cond_broadcast(&cons_cond)
      some { s with consumidores := broadcastCons s.consumidores, mainPc := .L183 }
  | .L183 =>
      -- pthread_mutex_unlock(&mutex_m)
      some { s with mutex_m := false, mainPc := .L187 }
  | .L187 =>
      -- for (...) pthread_join(consT[i], NULL): returns once every consumer has exited
      if s.consumidores.all (fun pc => pc = .L110) then some { s with mainPc := .L189 } else none
  | .L189 => none

/-- Spurious wake-up of a producer from `pthread_cond_wait` (allowed by POSIX). -/
def spuriousP (s : State) (i : Nat) : Option State :=
  match s.produtores[i]? with
  | some .W63 => some (s.gotoP i .R63)
  | _ => none

/-- Spurious wake-up of a consumer from `pthread_cond_wait` (allowed by POSIX). -/
def spuriousC (s : State) (i : Nat) : Option State :=
  match s.consumidores[i]? with
  | some .W116 => some (s.gotoC i .R116)
  | _ => none

/-- Scheduler choices: which thread runs next (with the value `rand()` returns
to a producer and the thread a signal wakes), or which suspended thread wakes
spuriously. -/
inductive Action where
  | produtor (i : Nat) (rnd : Nat) (wake : Nat)
  | consumidor (i : Nat) (wake : Nat)
  | main
  | spuriousP (i : Nat)
  | spuriousC (i : Nat)
  deriving DecidableEq, Repr

/-- One step of the whole program. -/
def step (cfg : Config) (s : State) : Action → Option State
  | .produtor i rnd wake => produtor cfg s i rnd wake
  | .consumidor i wake => consumidor s i wake
  | .main => main s
  | .spuriousP i => spuriousP s i
  | .spuriousC i => spuriousC s i

/-- Run a schedule; `none` when some chosen step is not enabled. -/
def exec (cfg : Config) (s : State) : List Action → Option State
  | [] => some s
  | a :: as => (step cfg s a).bind fun s' => exec cfg s' as

/-- States reachable from `init cfg` under some interleaving. -/
def Reachable (cfg : Config) (s : State) : Prop := ∃ tr, exec cfg (init cfg) tr = some s

/-- Number of items written by producers and not yet read by any consumer. -/
def unread (s : State) : Nat := s.written.length - s.consumed.length

/-- `main` has executed `pthread_cond_broadcast(&cons_cond)` (line 181). -/
def afterBroadcast (pc : MainPc) : Bool := pc = .L183 ∨ pc = .L187 ∨ pc = .L189

/-- Number of producers at program counter `pc`. -/
@[reducible] def nP (s : State) (pc : ProdutorPc) : Nat := s.produtores.count pc

/-- Number of consumers at program counter `pc`. -/
@[reducible] def nC (s : State) (pc : ConsumidorPc) : Nat := s.consumidores.count pc

/-- 1 when `main` holds `mutex_m` (lines 181-183), else 0. -/
def mainHolds : MainPc → Nat
  | .L181 | .L183 => 1
  | _ => 0

/-- 1 when `main` holds `fim_m` (lines 170-171), else 0. -/
def mainHoldsFim : MainPc → Nat
  | .L170 | .L171 => 1
  | _ => 0

/-- 1 once `main` has executed `fim_flag = 1` (line 170), else 0. -/
def mainFlag : MainPc → Nat
  | .L171 | .L179 | .L181 | .L183 | .L187 | .L189 => 1
  | _ => 0

/-- 1 once `main` has executed the broadcast of line 181, else 0. -/
def mainBroad : MainPc → Nat
  | .L183 | .L187 | .L189 => 1
  | _ => 0

/-- Inductive invariant of `consumidor_cond.c`. -/
structure Inv (s : State) : Prop where
  mtx : nP s .L62 + nP s .L66 + nP s .L73 + nP s .L76 + nP s .L78 + nP s .L85
    + nC s .L101 + nC s .L104 + nC s .L105 + nC s .L107 + nC s .L108 + nC s .L114
    + nC s .L116 + nC s .L120 + nC s .L126 + nC s .L129 + mainHolds s.mainPc
    = s.mutex_m.toNat
  fim : nC s .L105 + nC s .L107 + nC s .L114 + mainHoldsFim s.mainPc = s.fim_m.toNat
  lenp : s.len_prod = s.written.length % MAX_PROD
  lenc : s.len_cons = s.consumed.length % MAX_PROD
  le : s.consumed.length ≤ s.written.length
  cap : s.written.length < s.consumed.length + MAX_PROD
  rd : 1 ≤ nC s .L120 → s.consumed.length < s.written.length
  wr : 1 ≤ nP s .L66 → s.written.length + 1 < s.consumed.length + MAX_PROD
  flag : s.fim_flag = mainFlag s.mainPc
  woken : mainBroad s.mainPc = 1 → nC s .W116 + nC s .L114 + nC s .L116 = 0

/-- Ten productions of producer `i` (six steps each), every item with value 1. -/
def produceTen (i : Nat) : List Action := List.replicate 60 (.produtor i 0 0)

/-- Twenty consumptions of consumer 0 (five steps each). -/
def consumeTwenty : List Action := List.replicate 100 (.consumidor 0 0)

/-- Schedule in which the forty items are produced and read by consumer 0,
consumer 1 then finds the vector empty and `fim_flag == 0` and suspends in
`pthread_cond_wait`, and `main` sets `fim_flag`, broadcasts and unlocks. -/
def broadcastSchedule : List Action :=
  produceTen 0 ++ produceTen 1 ++ consumeTwenty ++ produceTen 2 ++ produceTen 3
    ++ consumeTwenty ++ List.replicate 6 (.consumidor 1 0) ++ List.replicate 7 .main

/-- State reached by `broadcastSchedule`: consumer 1 has been woken. -/
def broadcastState : State :=
  { mutex_m := false, fim_m := false, produtos := List.replicate 21 1,
    len_cons := 19, len_prod := 19, fim_flag := 1,
    produtores := List.replicate 4 .L80, prod_cont := List.replicate 4 10,
    consumidores := (List.replicate 12 ConsumidorPc.L98).set 1 .R116,
    cons_cont := (List.replicate 12 0).set 0 40,
    mainPc := .L187, written := List.replicate 40 1, consumed := List.replicate 40 1 }

/-- Schedule after which one item is unread and producer 1 stands at its write. -/
def writeSchedule : List Action :=
  List.replicate 6 (.produtor 0 0 0) ++ List.replicate 2 (.produtor 1 0 0)

/-- State reached by `writeSchedule`. -/
def writeState : State :=
  { mutex_m := true, fim_m := false, produtos := (List.replicate 21 0).set 0 1,
    len_cons := 0, len_prod := 1, fim_flag := 0,
    produtores := ((List.replicate 4 ProdutorPc.L59).set 1 .L66),
    prod_cont := (List.replicate 4 0).set 0 1,
    consumidores := List.replicate 12 .L98, cons_cont := List.replicate 12 0,
    mainPc := .L166, written := [1], consumed := [] }

end ConsumidorCond

/-! ## Lemmas on lists of per-thread data -/

theorem mem_of_get {α} {l : List α} {i : Nat} {b : α} (hi : l[i]? = some b) : b ∈ l := by
  rcases List.getElem?_eq_some_iff.mp hi with ⟨h, rfl⟩; exact List.getElem_mem h

/-- Replacing the entry `b` at index `i` by `a` moves one unit of count from `b` to `a`. -/
theorem count_set_eq {α} [DecidableEq α] {l : List α} {i : Nat} {b : α} (hi : l[i]? = some b)
    (a x : α) :
    (l.set i a).count x = l.count x + (if a = x then 1 else 0) - (if b = x then 1 else 0) := by
  induction l generalizing i with
  | nil => simp at hi
  | cons y ys ih =>
    cases i with
    | zero =>
      simp at hi; subst hi
      by_cases h1 : a = x <;> by_cases h2 : y = x <;> simp [List.count_cons, h1, h2]
    | succ n =>
      simp only [List.getElem?_cons_succ] at hi
      have := ih hi
      have hpos : (if b = x then 1 else 0) ≤ ys.count x := by
        split
        · next hb => subst hb; exact List.count_pos_iff.mpr (mem_of_get hi)
        · omega
      rw [List.set_cons_succ, List.count_cons, List.count_cons, this]
      omega

theorem one_le_count {α} [DecidableEq α] {l : List α} {i : Nat} {b : α} (hi : l[i]? = some b) :
    1 ≤ l.count b := List.count_pos_iff.mpr (mem_of_get hi)

theorem two_le_count {α} [DecidableEq α] {l : List α} {i j : Nat} {a : α} (hij : i ≠ j)
    (hi : l[i]? = some a) (hj : l[j]? = some a) : 2 ≤ l.count a := by
  induction l generalizing i j with
  | nil => simp at hi
  | cons x xs ih =>
    cases i with
    | zero =>
      cases j with
      | zero => exact absurd rfl hij
      | succ j =>
        simp only [List.getElem?_cons_zero, Option.some.injEq] at hi
        simp only [List.getElem?_cons_succ] at hj
        have := one_le_count hj
        subst hi
        simp only [List.count_cons_self]; omega
    | succ i =>
      cases j with
      | zero =>
        simp only [List.getElem?_cons_zero, Option.some.injEq] at hj
        simp only [List.getElem?_cons_succ] at hi
        have := one_le_count hi
        subst hj
        simp only [List.count_cons_self]; omega
      | succ j =>
        simp only [List.getElem?_cons_succ] at hi hj
        have := ih (fun h => hij (by rw [h])) hi hj
        have : xs.count a ≤ (x :: xs).count a := List.count_le_count_cons a x xs
        omega

theorem exists_of_count_pos {α} [DecidableEq α] {l : List α} {a : α} (h : 1 ≤ l.count a) :
    ∃ i : Nat, l[i]? = some a := by
  have hm : a ∈ l := List.count_pos_iff.mp h
  obtain ⟨i, hi, rfl⟩ := List.mem_iff_getElem.mp hm
  exact ⟨i, List.getElem?_eq_getElem hi⟩

theorem toNat_zero (b : Bool) : b = false ↔ b.toNat = 0 := by cases b <;> simp

theorem get_set_of {α} {l : List α} {i : Nat} {b : α} (hi : l[i]? = some b) (a : α) (k : Nat) :
    (l.set i a)[k]? = if k = i then some a else l[k]? := by
  have hlt : i < l.length := (List.getElem?_eq_some_iff.mp hi).1
  by_cases h : k = i
  · subst h; simp [hlt]
  · simp [h, List.getElem?_set_ne (Ne.symm h)]

theorem getD_set_of {l : List Nat} {p : Nat} (hp : p < l.length) (v i d : Nat) :
    (l.set p v).getD i d = if i = p then v else l.getD i d := by
  by_cases h : i = p
  · subst h; simp [List.getD_eq_getElem?_getD, hp]
  · simp [List.getD_eq_getElem?_getD, h, List.getElem?_set_ne (Ne.symm h)]

theorem countP_set_eq {α} (p : α → Bool) {l : List α} {i : Nat} {b : α} (hi : l[i]? = some b)
    (a : α) :
    (l.set i a).countP p = l.countP p + (if p a then 1 else 0) - (if p b then 1 else 0) := by
  induction l generalizing i with
  | nil => simp at hi
  | cons y ys ih =>
    cases i with
    | zero =>
      simp at hi; subst hi
      by_cases h1 : p a <;> by_cases h2 : p y <;> simp [List.countP_cons, h1, h2]
    | succ n =>
      simp only [List.getElem?_cons_succ] at hi
      have := ih hi
      have hpos : (if p b then 1 else 0) ≤ ys.countP p := by
        split
        · next hb => exact List.countP_pos_iff.mpr ⟨b, mem_of_get hi, hb⟩
        · omega
      rw [List.set_cons_succ, List.countP_cons, List.countP_cons, this]
      omega

theorem one_le_countP {α} (p : α → Bool) {l : List α} {i : Nat} {b : α} (hi : l[i]? = some b)
    (hb : p b = true) : 1 ≤ l.countP p :=
  List.countP_pos_iff.mpr ⟨b, mem_of_get hi, hb⟩

theorem two_le_countP {α} (p : α → Bool) {l : List α} {i j : Nat} {a b : α} (hij : i ≠ j)
    (hi : l[i]? = some a) (hj : l[j]? = some b) (ha : p a = true) (hb : p b = true) :
    2 ≤ l.countP p := by
  induction l generalizing i j with
  | nil => simp at hi
  | cons x xs ih =>
    cases i with
    | zero =>
      cases j with
      | zero => exact absurd rfl hij
      | succ j =>
        simp only [List.getElem?_cons_zero, Option.some.injEq] at hi
        simp only [List.getElem?_cons_succ] at hj
        have := one_le_countP p hj hb
        subst hi
        simp only [List.countP_cons, ha, if_true]; omega
    | succ i =>
      cases j with
      | zero =>
        simp only [List.getElem?_cons_zero, Option.some.injEq] at hj
        simp only [List.getElem?_cons_succ] at hi
        have := one_le_countP p hi ha
        subst hj
        simp only [List.countP_cons, hb, if_true]; omega
      | succ j =>
        simp only [List.getElem?_cons_succ] at hi hj
        have := ih (fun h => hij (by rw [h])) hi hj
        simp only [List.countP_cons]
        omega

theorem exists_of_countP_pos {α} (p : α → Bool) {l : List α} (h : 1 ≤ l.countP p) :
    ∃ (i : Nat) (a : α), l[i]? = some a ∧ p a = true := by
  obtain ⟨a, hm, ha⟩ := List.countP_pos_iff.mp h
  obtain ⟨i, hi, rfl⟩ := List.mem_iff_getElem.mp hm
  exact ⟨i, _, List.getElem?_eq_getElem hi, ha⟩

/-! ## `leitor_escritor.c`: invariant and claims -/

namespace LeitorEscritor

theorem le_inv_init : Inv init := by
  constructor <;> decide

theorem counted_le (l : List LeitorPc) :
    l.count .L76 + l.count .L79 + l.count .L82 + l.count .L85 + l.count .L87 ≤ l.length := by
  induction l with
  | nil => simp
  | cons x xs ih => cases x <;> simp [List.count_cons] <;> omega

theorem registered_le (l : List EscritorPc) :
    l.count .L125 + l.count .L128 + l.count .L131 + l.count .L134 + l.count .L137
      + l.count .L143 ≤ l.length := by
  induction l with
  | nil => simp
  | cons x xs ih => cases x <;> simp [List.count_cons] <;> omega

theorem uint_incr {n : Nat} (h : n ≤ 20) : (n + 1) % UINT_MOD = n + 1 :=
  Nat.mod_eq_of_lt (by unfold UINT_MOD; omega)

theorem uint_decr {n : Nat} (h : n ≤ 20) (h1 : 1 ≤ n) : (n + UINT_MOD - 1) % UINT_MOD = n - 1 := by
  unfold UINT_MOD; omega

set_option maxHeartbeats 1000000 in
theorem leitor_inv {s s' : State} {i : Nat} (h : Inv s) (hs : leitor s i = some s') : Inv s' := by
  obtain ⟨h1, h2, h3, h4, h5, h6, h7, h8, h9, h10, h11, h12⟩ := h
  simp only [nL, nE, NUM_LEIT, NUM_ESCR] at h1 h2 h3 h4 h5 h6 h7 h8 h9 h10 h11 h12
  have hb : s.num_leitores ≤ 20 := by have := counted_le s.leitores; omega
  have hinc := uint_incr hb
  have hdec : 1 ≤ s.leitores.count .L87 → 
      (s.num_leitores + UINT_MOD - 1) % UINT_MOD = s.num_leitores - 1 := 
    fun h => uint_decr hb (by omega)
  have hm1 := Bool.toNat_le s.mutex_m
  have hm2 := Bool.toNat_le s.leitura_m
  have hm3 := Bool.toNat_le s.inanicao_m
  unfold leitor at hs
  cases hpc : s.leitores[i]? with
  | none => simp [hpc] at hs
  | some pc =>
    have hpos := one_le_count hpc
    cases pc <;> simp only [hpc, hinc] at hs
    all_goals (try simp only [hdec hpos] at hs)
    all_goals (try split at hs)
    all_goals (try (rename_i hg; simp only [toNat_zero] at hg))
    all_goals first | exact Option.noConfusion hs | (simp only [Option.some.injEq] at hs; subst hs)
    all_goals constructor
    all_goals (try with_reducible assumption)
    all_goals simp only [nL, nE, NUM_LEIT, NUM_ESCR, State.gotoL, count_set_eq hpc,
        reduceCtorEq, if_true, if_false, ite_true, ite_false, Bool.toNat_true,
        Bool.toNat_false, Nat.add_zero, Nat.sub_zero, List.length_set, false_iff, true_iff]
    all_goals (try with_reducible assumption)
    all_goals clear hinc hdec hpc h1 h2
    all_goals omega

theorem count_wakeAll (l : List LeitorPc) (x : LeitorPc) (h1 : x ≠ .W65) (h2 : x ≠ .R65) :
    (wakeAll l).count x = l.count x := by
  induction l with
  | nil => rfl
  | cons y ys ih =>
    simp only [wakeAll, List.map_cons, List.count_cons] at ih ⊢
    rw [ih]
    by_cases hy : y = .W65
    · subst hy; simp [h1.symm, h2.symm]
    · simp [hy]

theorem length_wakeAll (l : List LeitorPc) : (wakeAll l).length = l.length := by
  simp [wakeAll]

set_option maxHeartbeats 1000000 in
theorem escritor_inv {s s' : State} {k rnd : Nat} (h : Inv s) (hs : escritor s k rnd = some s') :
    Inv s' := by
  obtain ⟨h1, h2, h3, h4, h5, h6, h7, h8, h9, h10, h11, h12⟩ := h
  simp only [nL, nE, NUM_LEIT, NUM_ESCR] at h1 h2 h3 h4 h5 h6 h7 h8 h9 h10 h11 h12
  have hb : s.locket_flag ≤ 20 := by have := registered_le s.escritores; omega
  have hinc := uint_incr hb
  have hdec : 1 ≤ s.escritores.count .L143 →
      (s.locket_flag + UINT_MOD - 1) % UINT_MOD = s.locket_flag - 1 :=
    fun h => uint_decr hb (by omega)
  have hm1 := Bool.toNat_le s.mutex_m
  have hm2 := Bool.toNat_le s.leitura_m
  have hm3 := Bool.toNat_le s.inanicao_m
  unfold escritor at hs
  cases hpc : s.escritores[k]? with
  | none => simp [hpc] at hs
  | some pc =>
    have hpos := one_le_count hpc
    cases pc <;> simp only [hpc, hinc] at hs
    all_goals (try simp only [hdec hpos] at hs)
    all_goals (try split at hs)
    all_goals (try (rename_i hg; simp only [toNat_zero] at hg))
    all_goals first | exact Option.noConfusion hs | (simp only [Option.some.injEq] at hs; subst hs)
    all_goals constructor
    all_goals (try with_reducible assumption)
    all_goals simp only [nL, nE, NUM_LEIT, NUM_ESCR, State.gotoE, count_set_eq hpc,
        reduceCtorEq, if_true, if_false, ite_true, ite_false, Bool.toNat_true,
        Bool.toNat_false, Nat.add_zero, Nat.sub_zero, List.length_set, false_iff, true_iff,
        count_wakeAll, length_wakeAll, ne_eq, not_false_eq_true]
    all_goals (try with_reducible assumption)
    all_goals clear hinc hdec hpc h1 h2
    all_goals omega

theorem le_spurious_inv {s s' : State} {i : Nat} (h : Inv s) (hs : spurious s i = some s') :
    Inv s' := by
  obtain ⟨h1, h2, h3, h4, h5, h6, h7, h8, h9, h10, h11, h12⟩ := h
  simp only [nL, nE, NUM_LEIT, NUM_ESCR] at h1 h2 h3 h4 h5 h6 h7 h8 h9 h10 h11 h12
  unfold spurious at hs
  split at hs
  · next hpc =>
    simp only [Option.some.injEq] at hs; subst hs
    constructor
    all_goals simp only [nL, nE, NUM_LEIT, NUM_ESCR, State.gotoL, count_set_eq hpc,
        reduceCtorEq, if_true, if_false, ite_true, ite_false, Nat.add_zero, Nat.sub_zero,
        List.length_set]
    all_goals with_reducible assumption
  · exact Option.noConfusion hs

theorem le_inv_step {s s' : State} {a : Action} (h : Inv s) (hs : step s a = some s') : Inv s' := by
  cases a with
  | leitor i => exact leitor_inv h hs
  | escritor k rnd => exact escritor_inv h hs
  | spurious i => exact le_spurious_inv h hs

theorem le_inv_exec {tr : List Action} {s s' : State} (h : Inv s) (hs : exec s tr = some s') :
    Inv s' := by
  induction tr generalizing s with
  | nil => simp only [exec, Option.some.injEq] at hs; exact hs ▸ h
  | cons a as ih =>
    simp only [exec] at hs
    cases hstep : step s a with
    | none => simp [hstep] at hs
    | some s1 => 
      simp only [hstep, Option.some_bind] at hs
      exact ih (le_inv_step h hstep) hs

theorem le_inv_reachable {s : State} (h : Reachable s) : Inv s := by
  obtain ⟨tr, htr⟩ := h
  exact le_inv_exec le_inv_init htr


/-- C1: in every reachable state of `leitor_escritor.c` no reader is at its
read of `critico` (line 82) while a writer is in its write section (between its
lock and its unlock of `mutex_m`), and no two writers are in the write section
at the same time. -/
theorem leitor_escritor_exclusion (s : State) (h : Reachable s) :
    (∀ (i k : Nat) (pl : LeitorPc) (pe : EscritorPc), s.leitores[i]? = some pl → s.escritores[k]? = some pe →
        ¬ (atRead pl = true ∧ inWrite pe = true)) ∧
    (∀ (k k' : Nat) (pe pe' : EscritorPc), s.escritores[k]? = some pe → s.escritores[k']? = some pe' →
        inWrite pe = true → inWrite pe' = true → k = k') := by
  have I := le_inv_reachable h
  have m1 := I.mtx1
  have m2 := I.mtx2
  simp only [nL, nE] at m1 m2
  constructor
  · rintro i k pl pe hl he ⟨hr, hw⟩
    have a1 := one_le_count hl
    have a2 := one_le_count he
    cases pl <;> simp [atRead] at hr
    cases pe <;> simp [inWrite] at hw <;> omega
  · intro k k' pe pe' hk hk' hw hw'
    by_contra hne
    have a1 := one_le_count hk
    have a2 := one_le_count hk'
    have a3 : pe = pe' → 2 ≤ s.escritores.count pe := fun e =>
      two_le_count hne hk (e ▸ hk')
    cases pe <;> simp [inWrite] at hw <;> cases pe' <;> simp [inWrite] at hw' <;>
      simp only [reduceCtorEq, forall_const, false_implies] at a3 <;> omega

/-- Witness of C1 on the state in which writer 0 writes and reader 3 is blocked. -/
theorem leitor_escritor_exclusion_witness :
    Reachable blockedReaderState ∧
    ((∀ (i k : Nat) (pl : LeitorPc) (pe : EscritorPc), blockedReaderState.leitores[i]? = some pl →
        blockedReaderState.escritores[k]? = some pe →
        ¬ (atRead pl = true ∧ inWrite pe = true)) ∧
    (∀ (k k' : Nat) (pe pe' : EscritorPc), blockedReaderState.escritores[k]? = some pe →
        blockedReaderState.escritores[k']? = some pe' →
        inWrite pe = true → inWrite pe' = true → k = k')) :=
  ⟨⟨blockedReaderSchedule, by decide⟩,
   leitor_escritor_exclusion blockedReaderState ⟨blockedReaderSchedule, by decide⟩⟩

/-- C8 as stated fails: `blockedReaderState` is reachable, has
`num_leitores = 1` and writer 0 holds `mutex_m`. -/
theorem num_leitores_positive_with_writer :
    ¬ ∀ s, Reachable s →
      (0 < s.num_leitores → ∀ (k : Nat) (pe : EscritorPc), s.escritores[k]? = some pe → inWrite pe = false) ∧
      (∀ (k : Nat) (pe : EscritorPc), s.escritores[k]? = some pe → inWrite pe = true → s.num_leitores = 0) := by
  intro hall
  have h := (hall blockedReaderState ⟨blockedReaderSchedule, by decide⟩).2 0 .L128
    (by decide) (by decide)
  exact absurd h (by decide)

/-- C8 (amended): in every reachable state in which a writer holds `mutex_m`,
`num_leitores` is at most 1, it is 1 only when a reader that has executed
`++num_leitores` is blocked in the lock of line 76, and no reader is admitted
(past line 76 and before the unlock of line 90). -/
theorem writer_excludes_admitted_readers (s : State) (h : Reachable s) (k : Nat)
    (pe : EscritorPc) (hk : s.escritores[k]? = some pe) (hw : inWrite pe = true) :
    s.num_leitores ≤ 1 ∧
    (0 < s.num_leitores → ∃ i : Nat, s.leitores[i]? = some LeitorPc.L76) ∧
    (∀ (i : Nat) (pl : LeitorPc), s.leitores[i]? = some pl → admitted pl = false) := by
  have I := le_inv_reachable h
  have m2 := I.mtx2
  have c := I.cnt
  have l := I.leitura
  have b := Bool.toNat_le s.leitura_m
  simp only [nL, nE] at m2 c l
  have a2 := one_le_count hk
  have hG : List.count LeitorPc.L79 s.leitores + List.count LeitorPc.L82 s.leitores
      + List.count LeitorPc.L85 s.leitores + List.count LeitorPc.L87 s.leitores
      + List.count LeitorPc.L90 s.leitores = 0 := by
    cases pe <;> simp [inWrite] at hw <;> omega
  refine ⟨by omega, fun hpos => exists_of_count_pos (by omega), ?_⟩
  intro i pl hl
  have a1 := one_le_count hl
  cases pl <;> simp [admitted] <;> omega

/-- Witness of the amended C8 on `blockedReaderState` and writer 0. -/
theorem writer_excludes_admitted_readers_witness :
    blockedReaderState.num_leitores ≤ 1 ∧
    (0 < blockedReaderState.num_leitores →
      ∃ i : Nat, blockedReaderState.leitores[i]? = some LeitorPc.L76) ∧
    (∀ (i : Nat) (pl : LeitorPc), blockedReaderState.leitores[i]? = some pl → admitted pl = false) :=
  writer_excludes_admitted_readers blockedReaderState ⟨blockedReaderSchedule, by decide⟩ 0
    .L128 (by decide) (by decide)

theorem all_preGate_set {l : List LeitorPc} {i : Nat} {pc : LeitorPc}
    (h : ∀ p ∈ l, preGate p = true) (hp : preGate pc = true) :
    ∀ p ∈ l.set i pc, preGate p = true := by
  intro p hm
  rcases List.mem_or_eq_of_mem_set hm with h1 | h1
  · exact h p h1
  · exact h1 ▸ hp

theorem all_preGate_wakeAll {l : List LeitorPc} (h : ∀ p ∈ l, preGate p = true) :
    ∀ p ∈ wakeAll l, preGate p = true := by
  intro p hm
  simp only [wakeAll, List.mem_map] at hm
  obtain ⟨q, hq, rfl⟩ := hm
  split
  · rfl
  · exact h q hq

/-- While writer `A` stays registered, a step keeps every reader before the gate. -/
theorem gate_step {s s' : State} {a : Action} {A : Nat} (I : Inv s)
    (hA : registeredAt A s = true) (hg : ∀ p ∈ s.leitores, preGate p = true)
    (hs : step s a = some s') : ∀ p ∈ s'.leitores, preGate p = true := by
  have hflag : 1 ≤ s.locket_flag := by
    unfold registeredAt at hA
    split at hA
    · next pc hpc =>
      have a1 := one_le_count hpc
      have f := I.flag
      simp only [nE] at f
      cases pc <;> simp [registered] at hA <;> omega
    · exact absurd hA (by simp)
  cases a with
  | leitor i =>
    simp only [step, leitor] at hs
    cases hpc : s.leitores[i]? with
    | none => simp [hpc] at hs
    | some pc =>
      have hpre := hg pc (mem_of_get hpc)
      cases pc <;> simp [preGate] at hpre <;> simp only [hpc] at hs
      all_goals (try split at hs)
      all_goals first 
        | (simp only [reduceCtorEq] at hs)
        | omega
        | (simp only [Option.some.injEq] at hs; subst hs
           simp only [State.gotoL]
           exact all_preGate_set hg (by decide))
  | escritor k rnd =>
    have hb : s.locket_flag ≤ 20 := by
      have := registered_le s.escritores
      have f := I.flag
      have l := I.lenE
      simp only [nE, NUM_ESCR] at f l
      omega
    have hinc := uint_incr hb
    have hdec := uint_decr hb hflag
    simp only [step, escritor] at hs
    cases hpc : s.escritores[k]? with
    | none => simp [hpc] at hs
    | some pc =>
      cases pc <;> simp only [hpc, hinc, hdec] at hs
      all_goals (try split at hs)
      all_goals first 
        | (simp only [reduceCtorEq] at hs)
        | (simp only [Option.some.injEq] at hs; subst hs
           simp only [State.gotoE]
           first | (with_reducible exact hg) | exact all_preGate_wakeAll hg)
  | spurious i =>
    simp only [step, spurious] at hs
    split at hs
    · simp only [Option.some.injEq] at hs; subst hs
      simp only [State.gotoL]
      exact all_preGate_set hg (by decide)
    · exact Option.noConfusion hs

theorem gate_exec {A : Nat} {tr : List Action} {s s' : State} (I : Inv s)
    (hA : registeredAt A s = true) (hg : ∀ p ∈ s.leitores, preGate p = true)
    (hs : execWhile (registeredAt A) s tr = some s') :
    Inv s' ∧ registeredAt A s' = true ∧ ∀ p ∈ s'.leitores, preGate p = true := by
  induction tr generalizing s with
  | nil => 
    simp only [execWhile, Option.some.injEq] at hs
    subst hs; exact ⟨I, hA, hg⟩
  | cons a as ih =>
    simp only [execWhile] at hs
    cases hstep : step s a with
    | none => simp [hstep] at hs
    | some s1 =>
      simp only [hstep, Option.some_bind] at hs
      split at hs
      · next hA1 => exact ih (le_inv_step I hstep) hA1 (gate_step I hA hg hstep) hs
      · exact Option.noConfusion hs

theorem flag_pos_of_registered {s : State} {A : Nat} (I : Inv s)
    (hA : registeredAt A s = true) : 0 < s.locket_flag := by
  unfold registeredAt at hA
  split at hA
  · next pc hpc =>
    have a1 := one_le_count hpc
    have f := I.flag
    simp only [nE] at f
    cases pc <;> simp [registered] at hA <;> omega
  · exact absurd hA (by simp)

/-- C9: a reader is at the unlock of line 68 (it has left the gate loop) only
in states with `locket_flag = 0`; and from a state in which writer `A` is
registered and every reader is still before the gate, along any schedule during
which `A` does not execute its `--locket_flag`, `locket_flag` stays positive
and no reader gets past the gate. -/
theorem gate_closed_while_registered (s : State) (h : Reachable s) :
    (∀ i : Nat, s.leitores[i]? = some LeitorPc.L68 → s.locket_flag = 0) ∧
    (∀ A : Nat, registeredAt A s = true → (∀ p ∈ s.leitores, preGate p = true) →
      ∀ (tr : List Action) (s' : State), execWhile (registeredAt A) s tr = some s' →
        0 < s'.locket_flag ∧ ∀ p ∈ s'.leitores, preGate p = true) := by
  have I := le_inv_reachable h
  constructor
  · intro i hi
    exact I.l68 (one_le_count hi)
  · intro A hA hg tr s' hs
    obtain ⟨I', hA', hg'⟩ := gate_exec I hA hg hs
    exact ⟨flag_pos_of_registered I' hA', hg'⟩

/-- Witness of C9: from `writerFirstState` (writer 0 registered, every reader
before the gate) the schedule `gateSchedule` leads to `gateState`. -/
theorem gate_closed_while_registered_witness :
    0 < gateState.locket_flag ∧ ∀ p ∈ gateState.leitores, preGate p = true :=
  (gate_closed_while_registered writerFirstState ⟨writerFirstSchedule, by decide⟩).2 0
    (by decide) (by decide) gateSchedule gateState (by decide)

theorem wake_back {l : List LeitorPc} {i : Nat} {pc' : LeitorPc}
    (hi : (wakeAll l)[i]? = some pc') :
    ∃ pc, l[i]? = some pc ∧ (pending pc' = true → pending pc = true)
      ∧ (pastGate pc' = true → pastGate pc = true) := by
  simp only [wakeAll, List.getElem?_map] at hi
  cases hq : l[i]? with
  | none => simp [hq] at hi
  | some q =>
    simp only [hq, Option.map_some', Option.some.injEq] at hi
    subst hi
    refine ⟨q, rfl, ?_, ?_⟩
    all_goals split
    all_goals first | exact id | simp [pending, pastGate]

/-- While `locket_flag` is nonzero, a step of a reader brings no reader past
the test of line 61. -/
theorem reader_back {s s' : State} {j : Nat} (hf : s.locket_flag ≠ 0)
    (hs : leitor s j = some s') (i : Nat) (pc' : LeitorPc) (hi : s'.leitores[i]? = some pc') :
    ∃ pc, s.leitores[i]? = some pc ∧ (pending pc' = true → pending pc = true)
      ∧ (pastGate pc' = true → pastGate pc = true) := by
  simp only [leitor] at hs
  cases hpc : s.leitores[j]? with
  | none => simp [hpc] at hs
  | some pc =>
    cases pc <;> simp only [hpc] at hs
    all_goals (try generalize (s.num_leitores + 1) % UINT_MOD = n at hs)
    all_goals (try generalize (s.num_leitores + UINT_MOD - 1) % UINT_MOD = n at hs)
    all_goals (try split at hs)
    all_goals first
      | (simp only [reduceCtorEq] at hs; done)
      | (simp only [Option.some.injEq] at hs; subst hs
         simp only [State.gotoL, get_set_of hpc] at hi
         split at hi
         · next hij =>
           subst hij
           simp only [Option.some.injEq] at hi; subst hi
           refine ⟨_, hpc, ?_, ?_⟩
           all_goals (try split)
           all_goals simp [pending, pastGate]
         · exact ⟨pc', hi, id, id⟩)

/-- A step of a writer changes the program counter of no reader, except that
the broadcast of line 146 wakes the suspended ones. -/
theorem writer_back {s s' : State} {k rnd : Nat} (I : Inv s) (hf : s.locket_flag ≠ 0)
    (hs : escritor s k rnd = some s') (i : Nat) (pc' : LeitorPc)
    (hi : s'.leitores[i]? = some pc') :
    ∃ pc, s.leitores[i]? = some pc ∧ (pending pc' = true → pending pc = true)
      ∧ (pastGate pc' = true → pastGate pc = true) := by
  have hb : s.locket_flag ≤ 20 := by
    have := registered_le s.escritores
    have f := I.flag
    have l := I.lenE
    simp only [nE, NUM_ESCR] at f l
    omega
  have hinc := uint_incr hb
  have hdec := uint_decr hb (by omega)
  simp only [escritor] at hs
  cases hpc : s.escritores[k]? with
  | none => simp [hpc] at hs
  | some pc =>
    cases pc <;> simp only [hpc, hinc, hdec] at hs
    all_goals (try split at hs)
    all_goals first
      | (simp only [reduceCtorEq] at hs; done)
      | (simp only [Option.some.injEq] at hs; subst hs
         simp only [State.gotoE] at hi
         first
           | (with_reducible exact ⟨pc', hi, id, id⟩)
           | exact wake_back hi)

theorem spurious_back {s s' : State} {j : Nat}
    (hs : spurious s j = some s') (i : Nat) (pc' : LeitorPc) (hi : s'.leitores[i]? = some pc') :
    ∃ pc, s.leitores[i]? = some pc ∧ (pending pc' = true → pending pc = true)
      ∧ (pastGate pc' = true → pastGate pc = true) := by
  simp only [spurious] at hs
  split at hs
  · next hpc =>
    simp only [Option.some.injEq] at hs; subst hs
    simp only [State.gotoL, get_set_of hpc] at hi
    split at hi
    · next hij =>
      subst hij
      simp only [Option.some.injEq] at hi; subst hi
      exact ⟨_, hpc, by simp [pending], by simp [pastGate]⟩
    · exact ⟨pc', hi, id, id⟩
  · simp only [reduceCtorEq] at hs

theorem gate_closed_step {s s' : State} {a : Action} (I : Inv s) (hf : s.locket_flag ≠ 0)
    (hs : step s a = some s') (i : Nat) (pc' : LeitorPc) (hi : s'.leitores[i]? = some pc') :
    ∃ pc, s.leitores[i]? = some pc ∧ (pending pc' = true → pending pc = true)
      ∧ (pastGate pc' = true → pastGate pc = true) := by
  cases a with
  | leitor j => exact reader_back hf hs i pc' hi
  | escritor k rnd => exact writer_back I hf hs i pc' hi
  | spurious j => exact spurious_back hs i pc' hi

theorem gate_closed_exec {tr : List Action} {s s' : State} (I : Inv s) (hf : s.locket_flag ≠ 0)
    (hs : execWhile flagSet s tr = some s') :
    Inv s' ∧ s'.locket_flag ≠ 0 ∧
    ∀ (i : Nat) (pc' : LeitorPc), s'.leitores[i]? = some pc' →
      ∃ pc, s.leitores[i]? = some pc ∧ (pending pc' = true → pending pc = true)
        ∧ (pastGate pc' = true → pastGate pc = true) := by
  induction tr generalizing s with
  | nil =>
    simp only [execWhile, Option.some.injEq] at hs
    subst hs
    exact ⟨I, hf, fun i pc' hi => ⟨pc', hi, id, id⟩⟩
  | cons a as ih =>
    simp only [execWhile] at hs
    cases hstep : step s a with
    | none => simp [hstep] at hs
    | some s1 =>
      simp only [hstep, Option.some_bind] at hs
      split at hs
      · next hp =>
        have hf1 : s1.locket_flag ≠ 0 := by simpa [flagSet] using hp
        obtain ⟨I', hf', hall⟩ := ih (le_inv_step I hstep) hf1 hs
        refine ⟨I', hf', ?_⟩
        intro i pc' hi
        obtain ⟨pc1, h1, a1, b1⟩ := hall i pc' hi
        obtain ⟨pc, h0, a0, b0⟩ := gate_closed_step I hf hstep i pc1 h1
        exact ⟨pc, h0, fun h => a0 (a1 h), fun h => b0 (b1 h)⟩
      · exact Option.noConfusion hs

theorem countP_registered (l : List EscritorPc) :
    l.countP (fun pe => registered pe)
      = l.count .L125 + l.count .L128 + l.count .L131 + l.count .L134 + l.count .L137
        + l.count .L143 := by
  induction l with
  | nil => rfl
  | cons x xs ih =>
    cases x <;> simp [List.countP_cons, List.count_cons, registered] at ih ⊢ <;> omega

/-- C11 as stated fails: `lateState` is reachable, `locket_flag` is 1 in it
(writer 0 has executed line 113 and not yet line 143) and `num_leitores` is 0;
reader 3 then executes `++num_leitores` and locks `mutex_m`, and in the state
reached writer 0 cannot pass its lock of `mutex_m` (line 125). -/
theorem increment_while_writer_registered :
    exec init lateSchedule = some lateState ∧
    lateState.locket_flag = 1 ∧ lateState.num_leitores = 0 ∧
    registeredAt 0 lateState = true ∧
    (leitor lateState 3).map (fun s => (s.num_leitores, s.locket_flag)) = some (1, 1) ∧
    exec lateState [.leitor 3, .leitor 3] = some aheadState ∧
    aheadState.escritores[0]? = some EscritorPc.L125 ∧
    escritor aheadState 0 7 = none := by
  decide

/-- C11 (amended): from a reachable state with `locket_flag != 0`, along any
schedule during which `locket_flag` stays nonzero, some writer is registered,
no reader passes the test of line 61: a reader that stands before
`++num_leitores` (lines 68-73) at the end had already passed the test at the
start, and so had every reader behind which a writer can wait on `mutex_m`
(lines 68-90). -/
theorem gate_closed_while_flag_set (s : State) (h : Reachable s) (hf : s.locket_flag ≠ 0)
    (tr : List Action) (s' : State) (hs : execWhile flagSet s tr = some s') :
    s'.locket_flag ≠ 0 ∧
    (∃ (k : Nat) (pe : EscritorPc), s'.escritores[k]? = some pe ∧ registered pe = true) ∧
    (∀ (i : Nat) (pc' : LeitorPc), s'.leitores[i]? = some pc' → pending pc' = true →
      ∃ pc, s.leitores[i]? = some pc ∧ pending pc = true) ∧
    (∀ (i : Nat) (pc' : LeitorPc), s'.leitores[i]? = some pc' → pastGate pc' = true →
      ∃ pc, s.leitores[i]? = some pc ∧ pastGate pc = true) := by
  obtain ⟨I', hf', hall⟩ := gate_closed_exec (le_inv_reachable h) hf hs
  refine ⟨hf', ?_, ?_, ?_⟩
  · have f := I'.flag
    simp only [nE] at f
    have hpos : 1 ≤ s'.escritores.countP (fun pe => registered pe) := by
      rw [countP_registered]; omega
    obtain ⟨k, pe, hk, hr⟩ := exists_of_countP_pos _ hpos
    exact ⟨k, pe, hk, hr⟩
  · intro i pc' hi hp
    obtain ⟨pc, h0, a0, _⟩ := hall i pc' hi
    exact ⟨pc, h0, a0 hp⟩
  · intro i pc' hi hp
    obtain ⟨pc, h0, _, b0⟩ := hall i pc' hi
    exact ⟨pc, h0, b0 hp⟩

/-- Witness of the amended C11: from `lateState` the schedule `cohortSchedule`
leads to `cohortState`. -/
theorem gate_closed_while_flag_set_witness :
    cohortState.locket_flag ≠ 0 ∧
    (∃ (k : Nat) (pe : EscritorPc), cohortState.escritores[k]? = some pe
      ∧ registered pe = true) ∧
    (∀ (i : Nat) (pc' : LeitorPc), cohortState.leitores[i]? = some pc' → pending pc' = true →
      ∃ pc, lateState.leitores[i]? = some pc ∧ pending pc = true) ∧
    (∀ (i : Nat) (pc' : LeitorPc), cohortState.leitores[i]? = some pc' → pastGate pc' = true →
      ∃ pc, lateState.leitores[i]? = some pc ∧ pastGate pc = true) :=
  gate_closed_while_flag_set lateState ⟨lateSchedule, by decide⟩ (by decide) cohortSchedule
    cohortState (by decide)

theorem countP_entering (l : List EscritorPc) :
    l.countP entering = l.count .L113 + l.count .L125 := by
  induction l with
  | nil => rfl
  | cons x xs ih =>
    cases x <;> simp [List.countP_cons, List.count_cons, entering] at ih ⊢ <;> omega

theorem countP_aboutToWrite (l : List EscritorPc) :
    l.countP aboutToWrite = l.count .L128 + l.count .L131 := by
  induction l with
  | nil => rfl
  | cons x xs ih =>
    cases x <;> simp [List.countP_cons, List.count_cons, aboutToWrite] at ih ⊢ <;> omega

theorem log_inv_init : LogInv init.escritores [] [] := by
  refine ⟨rfl, by decide, ?_, ?_⟩
  · intro j pc hj hp
    have := mem_of_get hj
    simp only [init, List.mem_replicate] at this
    rw [this.2] at hp; simp [aboutToWrite] at hp
  · intro j pc hj hp
    have := mem_of_get hj
    simp only [init, List.mem_replicate] at this
    rw [this.2] at hp; simp [entering] at hp

/-- A step that keeps writer `k` in the same group keeps `LogInv`. -/
theorem log_same {e : List EscritorPc} {a w : List Nat} {k : Nat} {pc pc' : EscritorPc}
    (J : LogInv e a w) (hk : e[k]? = some pc) (h1 : aboutToWrite pc' = aboutToWrite pc)
    (h2 : entering pc' = entering pc) : LogInv (e.set k pc') a w := by
  have c1 : (e.set k pc').countP aboutToWrite = e.countP aboutToWrite := by
    rw [countP_set_eq _ hk, h1]
    split
    · next hb => have := one_le_countP aboutToWrite hk hb; omega
    · omega
  have c2 : (e.set k pc').countP entering = e.countP entering := by
    rw [countP_set_eq _ hk, h2]
    split
    · next hb => have := one_le_countP entering hk hb; omega
    · omega
  refine ⟨J.pre, by rw [c1, c2]; exact J.len, ?_, ?_⟩
  · intro j q hj hq
    rw [get_set_of hk] at hj
    split at hj
    · next hjk =>
      simp only [Option.some.injEq] at hj; subst hj; subst hjk
      exact J.fst j pc hk (by rw [← h1]; exact hq)
    · exact J.fst j q hj hq
  · intro j q hj hq
    rw [c1]
    rw [get_set_of hk] at hj
    split at hj
    · next hjk =>
      simp only [Option.some.injEq] at hj; subst hj; subst hjk
      exact J.snd j pc hk (by rw [← h2]; exact hq)
    · exact J.snd j q hj hq

/-- Writer `k` locks `inanicao_m` at line 106. -/
theorem log_acquire {e : List EscritorPc} {a w : List Nat} {k : Nat}
    (J : LogInv e a w) (hk : e[k]? = some .L106) (h0 : e.countP entering = 0) :
    LogInv (e.set k .L113) (a ++ [k]) w := by
  have c1 : (e.set k .L113).countP aboutToWrite = e.countP aboutToWrite := by
    rw [countP_set_eq _ hk]; simp [aboutToWrite]
  have c2 : (e.set k .L113).countP entering = e.countP entering + 1 := by
    rw [countP_set_eq _ hk]; simp [entering]
  have hlen := J.len
  refine ⟨?_, ?_, ?_, ?_⟩
  · rw [List.take_append_of_le_length (by omega)]; exact J.pre
  · rw [c1, c2]; simp only [List.length_append, List.length_singleton]; omega
  · intro j q hj hq
    rw [get_set_of hk] at hj
    split at hj
    · simp only [Option.some.injEq] at hj; subst hj; simp [aboutToWrite] at hq
    · have := J.fst j q hj hq
      have hlt : w.length < a.length := (List.getElem?_eq_some_iff.mp this).1
      rw [List.getElem?_append_left hlt]; exact this
  · intro j q hj hq
    rw [c1]
    rw [get_set_of hk] at hj
    split at hj
    · next hjk =>
      subst hjk
      have : w.length + e.countP aboutToWrite = a.length := by omega
      rw [this]; simp
    · have := one_le_countP entering hj hq
      omega

/-- Writer `k` locks `mutex_m` at line 125. -/
theorem log_enter {e : List EscritorPc} {a w : List Nat} {k : Nat}
    (J : LogInv e a w) (hk : e[k]? = some .L125) (h0 : e.countP aboutToWrite = 0)
    (h1 : e.countP entering ≤ 1) : LogInv (e.set k .L128) a w := by
  have c1 : (e.set k .L128).countP aboutToWrite = e.countP aboutToWrite + 1 := by
    rw [countP_set_eq _ hk]; simp [aboutToWrite]
  have hpos := one_le_countP entering hk (by simp [entering])
  have c2 : (e.set k .L128).countP entering = e.countP entering - 1 := by
    rw [countP_set_eq _ hk]; simp [entering]
  have hlen := J.len
  refine ⟨J.pre, ?_, ?_, ?_⟩
  · rw [c1, c2]; omega
  · intro j q hj hq
    rw [get_set_of hk] at hj
    split at hj
    · next hjk =>
      subst hjk
      have := J.snd j .L125 hk (by simp [entering])
      rw [h0] at this
      exact this
    · have := one_le_countP aboutToWrite hj hq
      omega
  · intro j q hj hq
    rw [get_set_of hk] at hj
    split at hj
    · simp only [Option.some.injEq] at hj; subst hj; simp [entering] at hq
    · next hjk =>
      have := two_le_countP entering hjk hj hk hq (by simp [entering])
      omega

/-- Writer `k` writes `critico` at line 131. -/
theorem log_write {e : List EscritorPc} {a w : List Nat} {k : Nat}
    (J : LogInv e a w) (hk : e[k]? = some .L131) (h1 : e.countP aboutToWrite ≤ 1) :
    LogInv (e.set k .L134) a (w ++ [k]) := by
  have hpos := one_le_countP aboutToWrite hk (by simp [aboutToWrite])
  have c1 : (e.set k .L134).countP aboutToWrite = e.countP aboutToWrite - 1 := by
    rw [countP_set_eq _ hk]; simp [aboutToWrite]
  have c2 : (e.set k .L134).countP entering = e.countP entering := by
    rw [countP_set_eq _ hk]; simp [entering]
  have hlen := J.len
  have hfst := J.fst k .L131 hk (by simp [aboutToWrite])
  refine ⟨?_, ?_, ?_, ?_⟩
  · simp only [List.length_append, List.length_singleton]
    rw [List.take_succ, J.pre, hfst]; rfl
  · rw [c1, c2]; simp only [List.length_append, List.length_singleton]; omega
  · intro j q hj hq
    rw [get_set_of hk] at hj
    split at hj
    · simp only [Option.some.injEq] at hj; subst hj; simp [aboutToWrite] at hq
    · next hjk =>
      have := two_le_countP aboutToWrite hjk hj hk hq (by simp [aboutToWrite])
      omega
  · intro j q hj hq
    rw [c1]
    rw [get_set_of hk] at hj
    split at hj
    · simp only [Option.some.injEq] at hj; subst hj; simp [entering] at hq
    · have := J.snd j q hj hq
      simp only [List.length_append, List.length_singleton]
      have e1 : w.length + 1 + (e.countP aboutToWrite - 1) = w.length + e.countP aboutToWrite := by
        omega
      rw [e1]; exact this

theorem leitor_escritores {s s' : State} {i : Nat} (h : Inv s) (hs : leitor s i = some s') :
    s'.escritores = s.escritores := by
  have h5 := h.cnt
  simp only [nL] at h5
  have hb : s.num_leitores ≤ 20 := by
    have := counted_le s.leitores
    have := h.lenL
    simp only [NUM_LEIT] at this
    omega
  have hinc := uint_incr hb
  have hdec : 1 ≤ s.leitores.count .L87 →
      (s.num_leitores + UINT_MOD - 1) % UINT_MOD = s.num_leitores - 1 :=
    fun h => uint_decr hb (by omega)
  unfold leitor at hs
  cases hpc : s.leitores[i]? with
  | none => simp [hpc] at hs
  | some pc =>
    have hpos := one_le_count hpc
    cases pc <;> simp only [hpc, hinc] at hs
    all_goals (try simp only [hdec hpos] at hs)
    all_goals (try split at hs)
    all_goals first
      | (simp only [reduceCtorEq] at hs; done)
      | (simp only [Option.some.injEq] at hs; subst hs; rfl)

theorem spurious_escritores {s s' : State} {i : Nat} (hs : spurious s i = some s') :
    s'.escritores = s.escritores := by
  unfold spurious at hs
  split at hs
  · simp only [Option.some.injEq] at hs; subst hs; rfl
  · simp only [reduceCtorEq] at hs

/-- Effect of a step of writer `k` on the program counters of the writers. -/
theorem escritor_next {s s' : State} {k rnd : Nat} (h : Inv s)
    (hs : escritor s k rnd = some s') :
    ∃ pc pc', s.escritores[k]? = some pc ∧ s'.escritores = s.escritores.set k pc' ∧
      ((pc = .L106 ∧ pc' = .L113 ∧ s.inanicao_m = false) ∨
       (pc = .L125 ∧ pc' = .L128 ∧ s.mutex_m = false) ∨
       (pc = .L131 ∧ pc' = .L134) ∨
       (pc ≠ .L106 ∧ pc ≠ .L131 ∧ aboutToWrite pc' = aboutToWrite pc
          ∧ entering pc' = entering pc)) := by
  have hb : s.locket_flag ≤ 20 := by
    have := registered_le s.escritores
    have f := h.flag
    have l := h.lenE
    simp only [nE, NUM_ESCR] at f l
    omega
  have hinc := uint_incr hb
  have hdec : 1 ≤ s.escritores.count .L143 →
      (s.locket_flag + UINT_MOD - 1) % UINT_MOD = s.locket_flag - 1 := by
    intro h1
    have f := h.flag
    simp only [nE] at f
    exact uint_decr hb (by omega)
  unfold escritor at hs
  cases hpc : s.escritores[k]? with
  | none => simp [hpc] at hs
  | some pc =>
    have hpos := one_le_count hpc
    cases pc <;> simp only [hpc, hinc] at hs
    all_goals (try simp only [hdec hpos] at hs)
    all_goals (try split at hs)
    all_goals first
      | (simp only [reduceCtorEq] at hs; done)
      | (simp only [Option.some.injEq] at hs; subst hs
         refine ⟨_, _, rfl, rfl, ?_⟩
         simp [aboutToWrite, entering, *])

theorem log_step {l l' : Logged} {a : Action} (I : Inv l.st)
    (J : LogInv l.st.escritores l.acquired l.wrote) (hs : stepLogged l a = some l') :
    LogInv l'.st.escritores l'.acquired l'.wrote := by
  unfold stepLogged at hs
  cases hstep : step l.st a with
  | none => simp [hstep] at hs
  | some s' =>
    simp only [hstep] at hs
    cases a with
    | leitor i =>
      simp only [Option.some.injEq] at hs; subst hs
      simp only [leitor_escritores I hstep]
      exact J
    | spurious i =>
      simp only [Option.some.injEq] at hs; subst hs
      simp only [spurious_escritores hstep]
      exact J
    | escritor k rnd =>
      obtain ⟨pc, pc', hpc, he, hcase⟩ := escritor_next I hstep
      have i1 := I.inanicao
      have i2 := I.mtx1
      have i3 := I.mtx3
      have b1 := Bool.toNat_le l.st.inanicao_m
      have c1 := countP_entering l.st.escritores
      have c2 := countP_aboutToWrite l.st.escritores
      simp only [nE, nL] at i1 i2 i3
      simp only [hpc] at hs
      rcases hcase with ⟨rfl, rfl, hg⟩ | ⟨rfl, rfl, hg⟩ | ⟨rfl, rfl⟩ | ⟨n1, n2, e1, e2⟩
      · simp only [Option.some.injEq] at hs; subst hs
        simp only [he]
        rw [toNat_zero] at hg
        exact log_acquire J hpc (by omega)
      · simp only [Option.some.injEq] at hs; subst hs
        simp only [he]
        rw [toNat_zero] at hg
        exact log_enter J hpc (by omega) (by omega)
      · simp only [Option.some.injEq] at hs; subst hs
        simp only [he]
        exact log_write J hpc (by omega)
      · have : l' = { st := s', acquired := l.acquired, wrote := l.wrote } := by
          revert hs
          cases pc <;> simp at n1 n2 ⊢ <;> exact fun h => h.symm
        subst this
        simp only [he]
        exact log_same J hpc e1 e2

theorem execLogged_exec {tr : List Action} {l l' : Logged}
    (hs : execLogged l tr = some l') : exec l.st tr = some l'.st := by
  induction tr generalizing l with
  | nil => simp only [execLogged, Option.some.injEq] at hs; subst hs; rfl
  | cons a as ih =>
    simp only [execLogged] at hs
    cases hstep : stepLogged l a with
    | none => simp [hstep] at hs
    | some l1 =>
      simp only [hstep, Option.some_bind] at hs
      have h1 : step l.st a = some l1.st := by
        unfold stepLogged at hstep
        cases hst : step l.st a with
        | none => simp [hst] at hstep
        | some s1 =>
          simp only [hst] at hstep
          cases a with
          | leitor i => simp only [Option.some.injEq] at hstep; subst hstep; rfl
          | spurious i => simp only [Option.some.injEq] at hstep; subst hstep; rfl
          | escritor k rnd =>
            dsimp only at hstep
            split at hstep <;> (simp only [Option.some.injEq] at hstep; subst hstep; rfl)
      simp only [exec, h1, Option.some_bind]
      exact ih hs

theorem log_exec {tr : List Action} {l l' : Logged} (I : Inv l.st)
    (J : LogInv l.st.escritores l.acquired l.wrote) (hs : execLogged l tr = some l') :
    LogInv l'.st.escritores l'.acquired l'.wrote := by
  induction tr generalizing l with
  | nil => simp only [execLogged, Option.some.injEq] at hs; subst hs; exact J
  | cons a as ih =>
    simp only [execLogged] at hs
    cases hstep : stepLogged l a with
    | none => simp [hstep] at hs
    | some l1 =>
      simp only [hstep, Option.some_bind] at hs
      have h1 : exec l.st [a] = some l1.st :=
        execLogged_exec (by simp only [execLogged, hstep, Option.some_bind])
      exact ih (le_inv_exec I h1) (log_step I J hstep) hs

/-- C13: along every run, the writers that have written `critico` (line 131)
are, in the same order, the first writers that locked `inanicao_m` at line 106;
at most two acquisitions are not yet followed by the write.  The recorded run is
a run of the program. -/
theorem writes_in_acquisition_order (tr : List Action) (l : Logged)
    (h : execLogged initLogged tr = some l) :
    exec init tr = some l.st ∧ l.wrote <+: l.acquired ∧
    l.acquired.length ≤ l.wrote.length + 2 := by
  have hx : exec init tr = some l.st := execLogged_exec h
  have I := le_inv_exec le_inv_init hx
  have J := log_exec le_inv_init log_inv_init h
  refine ⟨hx, ?_, ?_⟩
  · rw [← J.pre]; exact List.take_prefix _ _
  · have a1 := J.len
    have i1 := I.inanicao
    have i2 := I.mtx1
    have b1 := Bool.toNat_le l.st.inanicao_m
    have c1 := countP_entering l.st.escritores
    have c2 := countP_aboutToWrite l.st.escritores
    simp only [nE, nL] at i1 i2
    omega

/-- Witness of C13: in the run `writersSchedule` writer 3 and then writer 1 lock
`inanicao_m` and write in that order, and writer 4 has locked `inanicao_m`. -/
theorem writes_in_acquisition_order_witness :
    exec init writersSchedule = some writersState.st ∧
    writersState.wrote <+: writersState.acquired ∧
    writersState.acquired.length ≤ writersState.wrote.length + 2 :=
  writes_in_acquisition_order writersSchedule writersState (by decide)

end LeitorEscritor

/-! ## `jantar_dos_filosofos.c`: invariant and claims -/

namespace JantarDosFilosofos

theorem jantar_inv_init : Inv init := by
  constructor
  · decide
  · decide
  · intro k f hk
    have : f ∈ init.filosofos := mem_of_get hk
    simp only [init, List.mem_replicate] at this
    rw [this.2]; rfl
  · intro i hi
    simp only [NUM_FILOSOFOS] at hi
    have : i = 0 ∨ i = 1 ∨ i = 2 ∨ i = 3 ∨ i = 4 := by omega
    rcases this with rfl | rfl | rfl | rfl | rfl <;> decide
  · intro i f hk
    have : f ∈ init.filosofos := mem_of_get hk
    simp only [init, List.mem_replicate] at this
    rw [this.2]; simp
  · intro k f hk hpc
    have : f ∈ init.filosofos := mem_of_get hk
    simp only [init, List.mem_replicate] at this
    rw [this.2] at hpc; simp at hpc

/-- A hashi on the `held` list of some thread has value 0. -/
theorem held_zero {s : State} (I : Inv s) {k : Nat} {f : Filosofo}
    (hf : s.filosofos[k]? = some f) (j : Nat) (hj : j ∈ f.held) (hlt : j < NUM_FILOSOFOS) :
    s.hashi.getD j 0 = 0 := by
  have h1 := I.one j hlt
  have h2 := one_le_countP (fun f => decide (j ∈ f.held)) hf (by simpa using hj)
  by_contra hne
  simp only [hne, if_false] at h1
  omega

/-- Effect on the invariant of a step of thread `i` that replaces its data by
`f'`, the vector by `h'` and the lock by `m'`. -/
theorem inv_update {s : State} (I : Inv s) {i : Nat} {f f' : Filosofo} {h' : List Nat}
    {m' : Bool} (hf : s.filosofos[i]? = some f)
    (ha : h'.length = NUM_FILOSOFOS)
    (hb : f'.held = heldAt i f'.pc)
    (hc : ∀ j : Nat, j < NUM_FILOSOFOS →
      (if j ∈ f'.held then 1 else 0) + (if h'.getD j 0 = 0 then 0 else 1)
        = (if j ∈ f.held then 1 else 0) + (if s.hashi.getD j 0 = 0 then 0 else 1))
    (hd : ∀ j : Nat, h'.getD j 0 = s.hashi.getD j 0 ∨ h'.getD j 0 = 0 ∨ h'.getD j 0 = 1)
    (hd' : h'.getD i 0 = 0 ∨ h'.getD i 0 = 1 ∨ f'.jantares = 0)
    (he : f'.pc = .L147 → f'.jantares = LIMIT_JANTAS) :
    Inv { mutex_m := m', hashi := h', filosofos := s.filosofos.set i f' } := by
  obtain ⟨h1, h2, h3, h4, h5, h6⟩ := I
  refine ⟨ha, ?_, ?_, ?_, ?_, ?_⟩
  · simp only [List.length_set]; exact h2
  · intro k g hk
    simp only [get_set_of hf] at hk
    split at hk
    · next hki => simp only [Option.some.injEq] at hk; subst hk; subst hki; exact hb
    · exact h3 k g hk
  · intro j hj
    have a1 := h4 j hj
    have a2 := hc j hj
    simp only [countP_set_eq _ hf, decide_eq_true_eq]
    by_cases hm : j ∈ f.held
    · have := one_le_countP (fun f => decide (j ∈ f.held)) hf (by simpa using hm)
      simp only [hm, if_true] at a2 ⊢
      omega
    · simp only [hm, if_false] at a2 ⊢
      omega
  · intro j g hk
    simp only [get_set_of hf] at hk
    split at hk
    · next hki => simp only [Option.some.injEq] at hk; subst hk; subst hki; exact hd'
    · have := h5 j g hk
      have := hd j
      show h'.getD j 0 = 0 ∨ h'.getD j 0 = 1 ∨ g.jantares = 0
      omega
  · intro k g hk hpc
    simp only [get_set_of hf] at hk
    split at hk
    · next hki => simp only [Option.some.injEq] at hk; subst hk; exact he hpc
    · exact h6 k g hk hpc


/-- Step of thread `i` that changes neither the vector nor its `held` list. -/
theorem inv_pc {s : State} (I : Inv s) {i : Nat} {f f' : Filosofo} {m' : Bool}
    (hf : s.filosofos[i]? = some f) (hh : f'.held = f.held)
    (hb : f'.held = heldAt i f'.pc)
    (hd' : s.hashi.getD i 0 = 0 ∨ s.hashi.getD i 0 = 1 ∨ f'.jantares = 0)
    (he : f'.pc = .L147 → f'.jantares = LIMIT_JANTAS) :
    Inv { mutex_m := m', hashi := s.hashi, filosofos := s.filosofos.set i f' } :=
  inv_update I hf I.lenH hb (fun j _ => by rw [hh]) (fun _ => Or.inl rfl) hd' he

/-- Step of thread `i` in which `pega_hashi(p)` returns 1. -/
theorem inv_take {s : State} (I : Inv s) {i p : Nat} {f f' : Filosofo} {m' : Bool}
    (hf : s.filosofos[i]? = some f) (hp : p < NUM_FILOSOFOS) (hfree : s.hashi.getD p 0 ≠ 0)
    (hh : f'.held = p :: f.held) (hb : f'.held = heldAt i f'.pc)
    (hj : f'.jantares = f.jantares) (he : f'.pc ≠ .L147) :
    Inv { mutex_m := m', hashi := s.hashi.set p 0, filosofos := s.filosofos.set i f' } := by
  have hlen : p < s.hashi.length := by rw [I.lenH]; exact hp
  have hnot : p ∉ f.held := fun hm => hfree (held_zero I hf p hm hp)
  refine inv_update I hf (by simp only [List.length_set]; exact I.lenH) hb ?_ ?_ ?_
    (fun h => absurd h he)
  · intro j _
    rw [hh, getD_set_of hlen]
    by_cases hjp : j = p
    · subst hjp
      rw [List.getD_eq_getElem?_getD] at hfree
      simp [hnot, hfree]
    · simp [hjp]
  · intro j
    rw [getD_set_of hlen]
    split <;> simp
  · rw [getD_set_of hlen, hj]
    split
    · exact Or.inl rfl
    · exact I.ini i f hf

/-- Step of thread `i` that runs `devolver_hashi(p)` on a hashi it holds. -/
theorem inv_give {s : State} (I : Inv s) {i p : Nat} {f f' : Filosofo} {m' : Bool}
    (hf : s.filosofos[i]? = some f) (hp : p < NUM_FILOSOFOS) (hmem : p ∈ f.held)
    (hnd : f.held.Nodup)
    (hh : f'.held = f.held.erase p) (hb : f'.held = heldAt i f'.pc)
    (hj : f'.jantares = f.jantares) (he : f'.pc ≠ .L147) :
    Inv { mutex_m := m', hashi := s.hashi.set p 1, filosofos := s.filosofos.set i f' } := by
  have hlen : p < s.hashi.length := by rw [I.lenH]; exact hp
  have hz := held_zero I hf p hmem hp
  refine inv_update I hf (by simp only [List.length_set]; exact I.lenH) hb ?_ ?_ ?_
    (fun h => absurd h he)
  · intro j _
    rw [hh, getD_set_of hlen]
    by_cases hjp : j = p
    · subst hjp
      rw [List.getD_eq_getElem?_getD] at hz
      simp [hnd.mem_erase_iff, hmem, hz]
    · simp [hjp, List.mem_erase_of_ne hjp]
  · intro j
    rw [getD_set_of hlen]
    split <;> simp
  · rw [getD_set_of hlen, hj]
    split
    · exact Or.inr (Or.inl rfl)
    · exact I.ini i f hf

/-- The invariant is kept by `pthread_cond_signal`. -/
theorem inv_signal {s : State} (I : Inv s) (j : Nat) :
    Inv { mutex_m := s.mutex_m, hashi := s.hashi, filosofos := signal s.filosofos j } := by
  unfold signal
  split
  · next g hg =>
    split
    · next hpc =>
      have hh := I.held j g hg
      rw [hpc] at hh
      exact inv_pc I hg rfl (by rw [hh]; rfl) (I.ini j g hg) (fun h => by simp at h)
    · exact I
  · exact I

theorem jantar_inv {s s' : State} {i : Nat} (h : Inv s) (hs : jantar s i = some s') :
    Inv s' := by
  have h2 := h.lenF
  unfold jantar at hs
  cases hf : s.filosofos[i]? with
  | none => simp [hf] at hs
  | some f =>
    have hi : i < NUM_FILOSOFOS := by
      have := (List.getElem?_eq_some_iff.mp hf).1
      simp only [NUM_FILOSOFOS] at h2 ⊢; omega
    have hd : (i + 1) % NUM_FILOSOFOS < NUM_FILOSOFOS := Nat.mod_lt _ (by decide)
    have hne : (i + 1) % NUM_FILOSOFOS ≠ i := by simp only [NUM_FILOSOFOS]; omega
    have hH := h.held i f hf
    have hI := h.ini i f hf
    have hZ := fun j => held_zero h hf j
    obtain ⟨pc, jn, hl⟩ := f
    simp only [hf] at hs
    simp only at hH hI hZ
    cases pc <;> simp only [heldAt] at hH <;> subst hH <;> 
      simp only [pega_hashi, devolver_hashi] at hs
    all_goals (try split at hs)
    all_goals (try simp only [Nat.one_ne_zero, ↓reduceIte, if_true, if_false] at hs)
    all_goals first
      | (simp only [reduceCtorEq] at hs)
      | (simp only [Option.some.injEq] at hs; subst hs)
    case L138 =>
      refine inv_signal (inv_pc h hf ?_ ?_ hI ?_) _
      · rfl
      · rfl
      · intro hpc; simp at hpc
    all_goals first
      | exact inv_pc h hf rfl rfl hI (fun hpc => by first | assumption | simp at hpc)
      | exact inv_pc h hf rfl rfl (Or.inl (hZ i (by simp) hi)) (fun hpc => by simp at hpc)
      | exact inv_take h hf hi (by assumption) rfl rfl rfl (by simp)
      | exact inv_take h hf hd (by assumption) rfl rfl rfl (by simp)
      | exact inv_give h hf hi (by simp) (by simp [hne]) rfl 
          (by simp [heldAt, List.erase_cons, hne]) rfl (by simp)
      | exact inv_give h hf hd (by simp) (by simp [hne]) rfl 
          (by simp [heldAt, List.erase_cons, hne]) rfl (by simp)

theorem jantar_spurious_inv {s s' : State} {i : Nat} (h : Inv s)
    (hs : spurious s i = some s') : Inv s' := by
  unfold spurious at hs
  split at hs
  · next f hf =>
    split at hs
    · next hpc =>
      simp only [Option.some.injEq] at hs; subst hs
      have hh := h.held i f hf
      rw [hpc] at hh
      exact inv_pc h hf rfl (by rw [hh]; rfl) (h.ini i f hf) (fun h => by simp at h)
    · simp only [reduceCtorEq] at hs
  · simp only [reduceCtorEq] at hs

theorem jantar_inv_step {s s' : State} {a : Action} (h : Inv s) (hs : step s a = some s') :
    Inv s' := by
  cases a with
  | jantar i => exact jantar_inv h hs
  | spurious i => exact jantar_spurious_inv h hs

theorem jantar_inv_exec {tr : List Action} {s s' : State} (h : Inv s)
    (hs : exec s tr = some s') : Inv s' := by
  induction tr generalizing s with
  | nil => simp only [exec, Option.some.injEq] at hs; exact hs ▸ h
  | cons a as ih =>
    simp only [exec] at hs
    cases hstep : step s a with
    | none => simp [hstep] at hs
    | some s1 =>
      simp only [hstep, Option.some_bind] at hs
      exact ih (jantar_inv_step h hstep) hs

theorem jantar_inv_reachable {s : State} (h : Reachable s) : Inv s := by
  obtain ⟨tr, htr⟩ := h
  exact jantar_inv_exec jantar_inv_init htr

/-- Two threads never hold the same hashi. -/
theorem held_unique {s : State} (I : Inv s) {i k j : Nat} {f g : Filosofo}
    (hi : i < NUM_FILOSOFOS) (hk : s.filosofos[k]? = some f) (hj : s.filosofos[j]? = some g)
    (hf : i ∈ f.held) (hg : i ∈ g.held) : k = j := by
  by_contra hne
  have h1 := I.one i hi
  have h2 := two_le_countP (fun f => decide (i ∈ f.held)) hne hk hj (by simpa using hf)
    (by simpa using hg)
  omega

/-- C3: in every reachable state each hashi is held by at most one thread,
`hashi[i]` is 0 exactly when some thread holds hashi `i`, and two neighbouring
philosophers are never both between their `jantares++` (line 118) and their
release of the left hashi (line 127). -/
theorem hashi_held_by_at_most_one (s : State) (h : Reachable s) :
    (∀ i : Nat, i < NUM_FILOSOFOS → ∀ (k j : Nat) (f g : Filosofo),
      s.filosofos[k]? = some f → s.filosofos[j]? = some g →
      i ∈ f.held → i ∈ g.held → k = j) ∧
    (∀ i : Nat, i < NUM_FILOSOFOS →
      (s.hashi[i]? = some 0 ↔ ∃ (k : Nat) (f : Filosofo), s.filosofos[k]? = some f ∧ i ∈ f.held)) ∧
    (∀ (k : Nat) (f g : Filosofo), s.filosofos[k]? = some f →
      s.filosofos[(k + 1) % NUM_FILOSOFOS]? = some g →
      ¬ (eating f.pc = true ∧ eating g.pc = true)) := by
  have I := jantar_inv_reachable h
  refine ⟨fun i hi k j f g hk hj hf hg => held_unique I hi hk hj hf hg, ?_, ?_⟩
  · intro i hi
    have hlen : i < s.hashi.length := by rw [I.lenH]; exact hi
    have h1 := I.one i hi
    rw [List.getElem?_eq_getElem hlen, Option.some.injEq]
    rw [List.getD_eq_getElem?_getD, List.getElem?_eq_getElem hlen, Option.getD_some] at h1
    constructor
    · intro hz
      simp only [hz, if_true] at h1
      have hc : 1 ≤ s.filosofos.countP (fun f => decide (i ∈ f.held)) := by omega
      obtain ⟨k, f, hk, hf⟩ := exists_of_countP_pos _ hc
      exact ⟨k, f, hk, by simpa using hf⟩
    · rintro ⟨k, f, hk, hf⟩
      have := one_le_countP (fun f => decide (i ∈ f.held)) hk (by simpa using hf)
      by_contra hne
      simp only [hne, if_false] at h1
      omega
  · rintro k f g hk hg ⟨hf, hg'⟩
    have hklt : k < NUM_FILOSOFOS := by
      have := (List.getElem?_eq_some_iff.mp hk).1
      rw [I.lenF] at this; exact this
    have hd : (k + 1) % NUM_FILOSOFOS < NUM_FILOSOFOS := Nat.mod_lt _ (by decide)
    have e1 := I.held k f hk
    have e2 := I.held _ g hg
    have m1 : (k + 1) % NUM_FILOSOFOS ∈ f.held := by
      rw [e1]; revert hf; cases f.pc <;> simp [eating, heldAt]
    have m2 : (k + 1) % NUM_FILOSOFOS ∈ g.held := by
      rw [e2]; revert hg'; cases g.pc <;> simp [eating, heldAt]
    have := held_unique I hd hk hg m1 m2
    simp only [NUM_FILOSOFOS] at this hklt
    omega


/-- C7: in every reachable state in which all five `jantar` threads have left
their loop, each thread's `jantares` equals 10 and every entry of `hashi`
equals 1. -/
theorem all_done_all_free (s : State) (h : Reachable s)
    (hall : ∀ f ∈ s.filosofos, f.pc = JantarPc.L147) :
    (∀ f ∈ s.filosofos, f.jantares = 10) ∧ s.hashi = List.replicate NUM_FILOSOFOS 1 := by
  have I := jantar_inv_reachable h
  have hj : ∀ f ∈ s.filosofos, f.jantares = 10 := by
    intro f hf
    obtain ⟨k, hk, rfl⟩ := List.mem_iff_getElem.mp hf
    exact I.fim k _ (List.getElem?_eq_getElem hk) (hall _ hf)
  refine ⟨hj, ?_⟩
  rw [List.eq_replicate_iff]
  refine ⟨I.lenH, ?_⟩
  intro v hv
  obtain ⟨i, hi, rfl⟩ := List.mem_iff_getElem.mp hv
  have hi5 : i < NUM_FILOSOFOS := by rw [← I.lenH]; exact hi
  have hif : i < s.filosofos.length := by rw [I.lenF]; exact hi5
  have hfi : s.filosofos[i]? = some s.filosofos[i] := List.getElem?_eq_getElem hif
  have hmem : s.filosofos[i] ∈ s.filosofos := List.getElem_mem hif
  have h1 := I.one i hi5
  have h5 := I.ini i _ hfi
  have h10 := hj _ hmem
  rw [List.getD_eq_getElem?_getD, List.getElem?_eq_getElem hi, Option.getD_some] at h1 h5
  rcases h5 with h0 | h1' | hz
  · simp only [h0, if_true] at h1
    have hc : 1 ≤ s.filosofos.countP (fun f => decide (i ∈ f.held)) := by omega
    obtain ⟨k, f, hk, hf⟩ := exists_of_countP_pos _ hc
    have := I.held k f hk
    rw [hall f (mem_of_get hk)] at this
    simp [this, heldAt] at hf
  · exact h1'
  · omega

set_option maxRecDepth 100000 in
/-- Witness of C7: `finalState` is reached by `sequentialSchedule`. -/
theorem all_done_all_free_witness :
    (∀ f ∈ finalState.filosofos, f.jantares = 10) ∧
      finalState.hashi = List.replicate NUM_FILOSOFOS 1 :=
  all_done_all_free finalState ⟨sequentialSchedule, by decide⟩ (by decide)

/-- C10 as stated fails: in `leftTakenState` philosopher 0 is about to release
`mutex_m` at line 94 and holds its left hashi only. -/
theorem unlock_holding_left_only :
    ¬ ∀ s, Reachable s → ∀ (k : Nat) (f : Filosofo), s.filosofos[k]? = some f →
      (f.pc = JantarPc.W91 → f.held = []) ∧
      (atUnlock f.pc = true →
        ¬ (k ∈ f.held ∧ (k + 1) % NUM_FILOSOFOS ∉ f.held)) := by
  intro hall
  have h := (hall leftTakenState ⟨[.jantar 0, .jantar 0], by decide⟩ 0
    { pc := .L94, jantares := 0, held := [0] } (by decide)).2 (by decide)
  exact h (by decide)

/-- C10 (amended): in every reachable state a thread suspended in
`pthread_cond_wait` (line 91) holds no hashi, and at each unlock of `mutex_m` a
thread holds: only its left hashi at line 94, none at line 111 (the left one was
given back in the same critical section after the right one was refused), both
at line 115, only the right one at line 129, none at line 140. -/
theorem held_at_release (s : State) (h : Reachable s) (k : Nat) (f : Filosofo)
    (hk : s.filosofos[k]? = some f) :
    (f.pc = JantarPc.W91 → f.held = []) ∧
    (f.pc = JantarPc.L94 → f.held = [k]) ∧
    (f.pc = JantarPc.L111 → f.held = []) ∧
    (f.pc = JantarPc.L115 → f.held = [(k + 1) % NUM_FILOSOFOS, k]) ∧
    (f.pc = JantarPc.L129 → f.held = [(k + 1) % NUM_FILOSOFOS]) ∧
    (f.pc = JantarPc.L140 → f.held = []) := by
  have e := (jantar_inv_reachable h).held k f hk
  refine ⟨?_, ?_, ?_, ?_, ?_, ?_⟩ <;> intro hpc <;> rw [hpc] at e <;> exact e

/-- Witness of the amended C10 on `leftTakenState` and philosopher 0. -/
theorem held_at_release_witness :
    (JantarPc.L94 = JantarPc.W91 → [0] = ([] : List Nat)) ∧
    (JantarPc.L94 = JantarPc.L94 → [0] = [0]) ∧
    (JantarPc.L94 = JantarPc.L111 → [0] = ([] : List Nat)) ∧
    (JantarPc.L94 = JantarPc.L115 → [0] = [(0 + 1) % NUM_FILOSOFOS, 0]) ∧
    (JantarPc.L94 = JantarPc.L129 → [0] = [(0 + 1) % NUM_FILOSOFOS]) ∧
    (JantarPc.L94 = JantarPc.L140 → [0] = ([] : List Nat)) :=
  held_at_release leftTakenState ⟨[.jantar 0, .jantar 0], by decide⟩ 0
    { pc := .L94, jantares := 0, held := [0] } (by decide)

/-- Witness of C3 on `leftTakenState`. -/
theorem hashi_held_by_at_most_one_witness :
    (∀ i : Nat, i < NUM_FILOSOFOS → ∀ (k j : Nat) (f g : Filosofo),
      leftTakenState.filosofos[k]? = some f → leftTakenState.filosofos[j]? = some g →
      i ∈ f.held → i ∈ g.held → k = j) ∧
    (∀ i : Nat, i < NUM_FILOSOFOS →
      (leftTakenState.hashi[i]? = some 0 ↔
        ∃ (k : Nat) (f : Filosofo), leftTakenState.filosofos[k]? = some f ∧ i ∈ f.held)) ∧
    (∀ (k : Nat) (f g : Filosofo), leftTakenState.filosofos[k]? = some f →
      leftTakenState.filosofos[(k + 1) % NUM_FILOSOFOS]? = some g →
      ¬ (eating f.pc = true ∧ eating g.pc = true)) :=
  hashi_held_by_at_most_one leftTakenState ⟨[.jantar 0, .jantar 0], by decide⟩

/-- C14 (failing state): the state right after `main` has initialised `hashi`
with `memset(&hashi, 1, sizeof(hashi))` has every entry equal to
`0x0101010101010101`, which is neither 0 nor 1; and in the reachable state
`leftTakenState` entry 1 still has that value. -/
theorem hashi_after_memset_not_binary :
    init.hashi = List.replicate NUM_FILOSOFOS MEMSET_ONES ∧
    (∀ v ∈ init.hashi, v ≠ 0 ∧ v ≠ 1) ∧
    exec init [.jantar 0, .jantar 0] = some leftTakenState ∧
    leftTakenState.hashi = [0, MEMSET_ONES, MEMSET_ONES, MEMSET_ONES, MEMSET_ONES] := by
  decide

theorem wait_inv_init : WaitInv init := by
  constructor
  · decide
  · intro i f hk hpc
    have : f ∈ init.filosofos := mem_of_get hk
    simp only [init, List.mem_replicate] at this
    rw [this.2] at hpc; simp at hpc

/-- Effect on `WaitInv` of a step of thread `k` that replaces its data by `f'`,
the vector by `h'` and the lock by `m'`, and does not signal. -/
theorem wait_update {s : State} (I : Inv s) (W : WaitInv s) {k : Nat} {f f' : Filosofo}
    {h' : List Nat} {m' : Bool} (hf : s.filosofos[k]? = some f)
    (hm : (if holdsMutex f'.pc then 1 else 0) + s.mutex_m.toNat
      = (if holdsMutex f.pc then 1 else 0) + m'.toNat)
    (h1 : f'.pc = .W91 → h'.getD k 0 = 0)
    (h2 : ∀ j : Nat, j ≠ k → s.hashi.getD j 0 = 0 →
      h'.getD j 0 = 0 ∨ (j = (k + 1) % NUM_FILOSOFOS ∧ f'.pc = .L138))
    (h3 : f.pc = .L138 → f'.pc = .L138) :
    WaitInv { mutex_m := m', hashi := h', filosofos := s.filosofos.set k f' } := by
  have hk : k < NUM_FILOSOFOS := by
    have := (List.getElem?_eq_some_iff.mp hf).1
    rw [I.lenF] at this; exact this
  constructor
  · have a1 := W.mtx
    simp only [countP_set_eq _ hf]
    by_cases hh : holdsMutex f.pc = true
    · have := one_le_countP (fun f => holdsMutex f.pc) hf hh
      simp only [hh, if_true] at hm ⊢
      omega
    · simp only [hh, if_false] at hm ⊢
      omega
  · intro i g hi hpc
    simp only [get_set_of hf] at hi ⊢
    split at hi
    · next hik =>
      simp only [Option.some.injEq] at hi; subst hi; subst hik
      exact Or.inl (h1 hpc)
    · next hik =>
      rcases W.wait i g hi hpc with hz | ⟨g1, hg1, hp1⟩
      · rcases h2 i hik hz with hz' | ⟨hij, hp⟩
        · exact Or.inl hz'
        · right
          have : vizinho i = k := by
            simp only [vizinho, NUM_FILOSOFOS] at hij hk ⊢; omega
          exact ⟨f', by simp [this], hp⟩
      · right
        by_cases hv : vizinho i = k
        · rw [hv] at hg1
          rw [hf] at hg1
          simp only [Option.some.injEq] at hg1; subst hg1
          exact ⟨f', by simp [hv], h3 hp1⟩
        · exact ⟨g1, by simp [hv, hg1], hp1⟩

theorem countP_set_same {α} (p : α → Bool) {l : List α} {i : Nat} {b : α}
    (hi : l[i]? = some b) {a : α} (h : p a = p b) : (l.set i a).countP p = l.countP p := by
  rw [countP_set_eq p hi, h]
  split
  · next hb => have := one_le_countP p hi hb; omega
  · omega

theorem signal_get (l : List Filosofo) (j i : Nat) :
    (signal l j)[i]? = (l[i]?).map
      (fun f => if i = j ∧ f.pc = .W91 then { f with pc := .R91 } else f) := by
  unfold signal
  split
  · next f hf =>
    split
    · next hw =>
      rw [get_set_of hf]
      by_cases hij : i = j
      · subst hij; simp [hf, hw]
      · cases h : l[i]? <;> simp [hij]
    · next hw =>
      cases h : l[i]? with
      | none => simp
      | some g =>
        simp only [Option.map_some', Option.some.injEq]
        split
        · next hc =>
          obtain ⟨hij, hg⟩ := hc
          subst hij; rw [hf] at h; simp only [Option.some.injEq] at h; subst h
          exact absurd hg hw
        · rfl
  · next hn =>
    cases h : l[i]? with
    | none => simp
    | some g =>
      simp only [Option.map_some', Option.some.injEq]
      split
      · next hc =>
        obtain ⟨hij, hg⟩ := hc
        subst hij; rw [h] at hn; simp at hn
      · rfl

theorem countP_signal (l : List Filosofo) (j : Nat) :
    (signal l j).countP (fun f => holdsMutex f.pc) = l.countP (fun f => holdsMutex f.pc) := by
  unfold signal
  split
  · next f hf =>
    split
    · next hw =>
      rw [countP_set_eq _ hf]
      simp [holdsMutex, hw]
    · rfl
  · rfl

/-- The signal of line 138 keeps `WaitInv`: it wakes the thread that waits on
the hashi given back at line 136. -/
theorem wait_signal {s : State} (I : Inv s) (W : WaitInv s) {k : Nat} {f : Filosofo}
    (hf : s.filosofos[k]? = some f) (hpc : f.pc = .L138) :
    WaitInv { mutex_m := s.mutex_m, hashi := s.hashi,
              filosofos := signal (s.filosofos.set k { f with pc := .L140 })
                ((k + 1) % NUM_FILOSOFOS) } := by
  have hk : k < NUM_FILOSOFOS := by
    have := (List.getElem?_eq_some_iff.mp hf).1
    rw [I.lenF] at this; exact this
  constructor
  · rw [countP_signal, countP_set_same _ hf]
    · exact W.mtx
    · simp [hpc, holdsMutex]
  · intro i g hi hw
    simp only [signal_get, get_set_of hf] at hi ⊢
    by_cases hik : i = k
    · subst hik
      simp at hi
      subst hi; simp at hw
    · simp only [hik, if_false] at hi
      cases h0 : s.filosofos[i]? with
      | none => simp [h0] at hi
      | some g0 =>
        simp only [h0, Option.map_some', Option.some.injEq] at hi
        split at hi
        · subst hi; simp at hw
        · next hc =>
          subst hi
          have hid : i ≠ (k + 1) % NUM_FILOSOFOS := fun e => hc ⟨e, hw⟩
          have hi5 : i < NUM_FILOSOFOS := by
            have := (List.getElem?_eq_some_iff.mp h0).1
            rw [I.lenF] at this; exact this
          have hv : vizinho i ≠ k := by
            simp only [vizinho, NUM_FILOSOFOS] at hid hk hi5 ⊢; omega
          rcases W.wait i g0 h0 hw with hz | ⟨g1, hg1, hp1⟩
          · exact Or.inl hz
          · right
            refine ⟨g1, ?_, hp1⟩
            simp [hv, hg1, hp1]

theorem jantar_wait {s s' : State} {i : Nat} (h : Inv s) (W : WaitInv s)
    (hs : jantar s i = some s') : WaitInv s' := by
  have h2 := h.lenF
  unfold jantar at hs
  cases hf : s.filosofos[i]? with
  | none => simp [hf] at hs
  | some f =>
    have hi : i < NUM_FILOSOFOS := by
      have := (List.getElem?_eq_some_iff.mp hf).1
      simp only [NUM_FILOSOFOS] at h2 ⊢; omega
    have hli : i < s.hashi.length := by rw [h.lenH]; exact hi
    have hld : (i + 1) % NUM_FILOSOFOS < s.hashi.length := by
      rw [h.lenH]; exact Nat.mod_lt _ (by decide)
    have hmt : holdsMutex f.pc = true → s.mutex_m = true := by
      intro hh
      have a := one_le_countP (fun f => holdsMutex f.pc) hf hh
      have b := W.mtx
      cases hm : s.mutex_m with
      | true => rfl
      | false =>
        rw [hm] at b
        simp only [Bool.toNat_false] at b
        omega
    obtain ⟨pc, jn, hl⟩ := f
    simp only [hf] at hs
    simp only at hmt
    cases pc <;> simp only [pega_hashi, devolver_hashi] at hs
    all_goals (try split at hs)
    all_goals (try simp only [Nat.one_ne_zero, ↓reduceIte, if_true, if_false] at hs)
    all_goals first
      | (simp only [reduceCtorEq] at hs; done)
      | (simp only [Option.some.injEq] at hs; subst hs)
    case L138 => exact wait_signal h W hf rfl
    all_goals refine wait_update h W hf ?_ ?_ ?_ ?_
    all_goals first
      | (intro hpc; simp only [reduceCtorEq] at hpc; done)
      | (intro hpc; omega)
      | (intro j hj hz
         first
           | exact Or.inl hz
           | (rw [getD_set_of hli]; split
              · first | exact Or.inl rfl | (next hji => exact absurd hji hj)
              · exact Or.inl hz)
           | (rw [getD_set_of hld]; split
              · first | exact Or.inl rfl | (next hji => exact Or.inr ⟨hji, rfl⟩)
              · exact Or.inl hz))
      | (simp [holdsMutex]; done)
      | (rename_i hg; simp [holdsMutex, hg]; done)
      | (simp [holdsMutex]; exact hmt (by simp [holdsMutex]))

theorem spurious_wait {s s' : State} {i : Nat} (h : Inv s) (W : WaitInv s)
    (hs : spurious s i = some s') : WaitInv s' := by
  unfold spurious at hs
  split at hs
  · next f hf =>
    split at hs
    · next hpc =>
      simp only [Option.some.injEq] at hs; subst hs
      refine wait_update h W hf ?_ ?_ ?_ ?_
      · simp [holdsMutex, hpc]
      · intro hp; simp at hp
      · intro j _ hz; exact Or.inl hz
      · intro hp; rw [hpc] at hp; simp at hp
    · simp only [reduceCtorEq] at hs
  · simp only [reduceCtorEq] at hs

theorem wait_inv_exec {tr : List Action} {s s' : State} (h : Inv s) (W : WaitInv s)
    (hs : exec s tr = some s') : WaitInv s' := by
  induction tr generalizing s with
  | nil => simp only [exec, Option.some.injEq] at hs; exact hs ▸ W
  | cons a as ih =>
    simp only [exec] at hs
    cases hstep : step s a with
    | none => simp [hstep] at hs
    | some s1 =>
      simp only [hstep, Option.some_bind] at hs
      refine ih (jantar_inv_step h hstep) ?_ hs
      cases a with
      | jantar i => exact jantar_wait h W hstep
      | spurious i => exact spurious_wait h W hstep

theorem wait_inv_reachable {s : State} (h : Reachable s) : WaitInv s := by
  obtain ⟨tr, htr⟩ := h
  exact wait_inv_exec jantar_inv_init wait_inv_init htr

/-- A thread that is neither suspended nor finished has an enabled step when
`mutex_m` is free or held by the thread itself. -/
theorem jantar_enabled {s : State} {i : Nat} {f : Filosofo} (hf : s.filosofos[i]? = some f)
    (h1 : f.pc ≠ .W91) (h2 : f.pc ≠ .L147) (h3 : s.mutex_m = false ∨ holdsMutex f.pc = true) :
    ∃ s', jantar s i = some s' := by
  obtain ⟨pc, jn, hl⟩ := f
  unfold jantar
  simp only [hf]
  simp only at h1 h2 h3
  cases pc <;> simp only [holdsMutex] at h3 <;> simp at h1 h2 h3 ⊢
  all_goals first
    | exact h3
    | (split <;> simp)
    | skip

/-- C15 as stated fails: in `returnedState`, reached by `returnSchedule`,
philosopher 1 is suspended in the wait of line 91 while `hashi[1]` is 1 and no
thread holds hashi 1: philosopher 0 has executed `devolver_hashi` (line 136)
and not yet the signal of line 138. -/
theorem waiting_on_free_hashi :
    exec init returnSchedule = some returnedState ∧
    returnedState.filosofos[1]? = some { pc := JantarPc.W91, jantares := 0, held := [] } ∧
    returnedState.hashi[1]? = some 1 ∧
    (∀ f ∈ returnedState.filosofos, 1 ∉ f.held) ∧
    returnedState.filosofos[0]? = some { pc := JantarPc.L138, jantares := 1, held := [] } := by
  decide

/-- C15 (amended): in every reachable state, if philosopher `i` is suspended in
the wait of line 91, then either `hashi[i]` is 0 and hashi `i` is held as right
hashi by its neighbour `vizinho i`, which stands between its `pega_hashi` of
line 106 and its `devolver_hashi` of line 136, or that neighbour holds
`mutex_m` and stands at the signal of line 138, right after the
`devolver_hashi` of line 136; and in every reachable state in which some
philosopher has not left its loop, some thread has an enabled step. -/
theorem waiting_philosopher_has_holder (s : State) (h : Reachable s) :
    (∀ (i : Nat) (f : Filosofo), s.filosofos[i]? = some f → f.pc = JantarPc.W91 →
      ∃ g, s.filosofos[vizinho i]? = some g ∧
        ((s.hashi.getD i 0 = 0 ∧ i ∈ g.held ∧ holdsRight g.pc = true) ∨
          (g.pc = JantarPc.L138 ∧ s.mutex_m = true))) ∧
    ((∃ f ∈ s.filosofos, f.pc ≠ JantarPc.L147) →
      ∃ (i : Nat) (s' : State), jantar s i = some s') := by
  have I := jantar_inv_reachable h
  have W := wait_inv_reachable h
  have part1 : ∀ (i : Nat) (f : Filosofo), s.filosofos[i]? = some f → f.pc = JantarPc.W91 →
      ∃ g, s.filosofos[vizinho i]? = some g ∧
        ((s.hashi.getD i 0 = 0 ∧ i ∈ g.held ∧ holdsRight g.pc = true) ∨
          (g.pc = JantarPc.L138 ∧ s.mutex_m = true)) := by
    intro i f hf hpc
    have hi5 : i < NUM_FILOSOFOS := by
      have := (List.getElem?_eq_some_iff.mp hf).1
      rw [I.lenF] at this; exact this
    rcases W.wait i f hf hpc with hz | ⟨g, hg, hp⟩
    · have h1 := I.one i hi5
      simp only [hz, if_true] at h1
      have hc : 1 ≤ s.filosofos.countP (fun f => decide (i ∈ f.held)) := by omega
      obtain ⟨k, g, hk, hmem⟩ := exists_of_countP_pos _ hc
      simp only [decide_eq_true_eq] at hmem
      have hk5 : k < NUM_FILOSOFOS := by
        have := (List.getElem?_eq_some_iff.mp hk).1
        rw [I.lenF] at this; exact this
      have key : i = (k + 1) % NUM_FILOSOFOS ∧ holdsRight g.pc = true := by
        have hmem' := hmem
        rw [I.held k g hk] at hmem'
        by_cases hik : i = k
        · subst hik
          rw [hf] at hk
          simp only [Option.some.injEq] at hk; subst hk
          rw [hpc] at hmem'
          simp [heldAt] at hmem'
        · revert hmem'
          cases g.pc <;> simp [heldAt, holdsRight, hik]
      have hv : vizinho i = k := by
        have := key.1
        simp only [vizinho, NUM_FILOSOFOS] at this hk5 ⊢; omega
      exact ⟨g, by rw [hv]; exact hk, Or.inl ⟨hz, hmem, key.2⟩⟩
    · refine ⟨g, hg, Or.inr ⟨hp, ?_⟩⟩
      have a := one_le_countP (fun f => holdsMutex f.pc) hg (by simp [hp, holdsMutex])
      have b := W.mtx
      cases hm : s.mutex_m with
      | true => rfl
      | false =>
        rw [hm] at b
        simp only [Bool.toNat_false] at b
        omega
  refine ⟨part1, ?_⟩
  rintro ⟨f, hfm, hne⟩
  by_contra hno
  have hnone : ∀ (k : Nat) (g : Filosofo), s.filosofos[k]? = some g →
      ¬ (g.pc ≠ .W91 ∧ g.pc ≠ .L147 ∧ (s.mutex_m = false ∨ holdsMutex g.pc = true)) := by
    intro k g hk ⟨a, b, c⟩
    obtain ⟨s', hs'⟩ := jantar_enabled hk a b c
    exact hno ⟨k, s', hs'⟩
  cases hm : s.mutex_m with
  | true =>
    have := W.mtx
    rw [hm] at this
    obtain ⟨k, g, hk, hh⟩ := exists_of_countP_pos (fun f : Filosofo => holdsMutex f.pc)
      (by rw [this]; decide)
    refine hnone k g hk ⟨?_, ?_, Or.inr hh⟩
    · intro e; rw [e] at hh; simp [holdsMutex] at hh
    · intro e; rw [e] at hh; simp [holdsMutex] at hh
  | false =>
    obtain ⟨j, hj, rfl⟩ := List.mem_iff_getElem.mp hfm
    have hfj : s.filosofos[j]? = some s.filosofos[j] := List.getElem?_eq_getElem hj
    have hw : s.filosofos[j].pc = .W91 := by
      by_contra hnw
      exact hnone j _ hfj ⟨hnw, hne, Or.inl hm⟩
    obtain ⟨g, hg, hcase⟩ := part1 j _ hfj hw
    have hgpc : g.pc = .W91 ∨ g.pc = .L147 := by
      by_contra hc
      simp only [not_or] at hc
      exact hnone _ g hg ⟨hc.1, hc.2, Or.inl hm⟩
    rcases hcase with ⟨_, _, hr⟩ | ⟨hp, _⟩
    · rcases hgpc with e | e <;> rw [e] at hr <;> simp [holdsRight] at hr
    · rcases hgpc with e | e <;> rw [e] at hp <;> simp at hp

/-- Witness of the amended C15 on `waitState`: philosopher 1 waits for hashi 1,
which philosopher 0 holds as its right hashi. -/
theorem waiting_philosopher_has_holder_witness :
    (∀ (i : Nat) (f : Filosofo), waitState.filosofos[i]? = some f → f.pc = JantarPc.W91 →
      ∃ g, waitState.filosofos[vizinho i]? = some g ∧
        ((waitState.hashi.getD i 0 = 0 ∧ i ∈ g.held ∧ holdsRight g.pc = true) ∨
          (g.pc = JantarPc.L138 ∧ waitState.mutex_m = true))) ∧
    ((∃ f ∈ waitState.filosofos, f.pc ≠ JantarPc.L147) →
      ∃ (i : Nat) (s' : State), jantar waitState i = some s') :=
  waiting_philosopher_has_holder waitState ⟨waitSchedule, by decide⟩

end JantarDosFilosofos

/-! ## `consumidor_sem.c`: invariant and claims -/

namespace ConsumidorSem

theorem sem_inv_init (cfg : Config) : Inv (init cfg) := by
  constructor <;> simp [init, nP, nC, mainHolds, mainFlag, mainLoop, MAX_PROD, List.count_replicate]

/-- The slots that hold unread items keep their value when a new item is
stored at index `written.length % MAX_PROD`, provided fewer than `MAX_PROD`
items are unread. -/
theorem slots_write {produtos written : List Nat} {c : Nat} (v : Nat)
    (hsize : produtos.length = MAX_PROD) (hle : c ≤ written.length)
    (hroom : written.length < c + MAX_PROD)
    (hslots : ∀ k : Nat, c ≤ k → k < written.length →
      produtos[k % MAX_PROD]? = written[k]?) :
    ∀ k : Nat, c ≤ k → k < (written ++ [v]).length →
      (produtos.set (written.length % MAX_PROD) v)[k % MAX_PROD]? = (written ++ [v])[k]? := by
  intro k hck hk
  simp only [List.length_append, List.length_singleton] at hk
  have hlt : written.length % MAX_PROD < produtos.length := by
    rw [hsize]; exact Nat.mod_lt _ (by decide)
  by_cases hkw : k = written.length
  · subst hkw
    rw [List.getElem?_set_self hlt]
    simp
  · have hk' : k < written.length := by omega
    have hne : written.length % MAX_PROD ≠ k % MAX_PROD := by
      simp only [MAX_PROD] at hroom ⊢; omega
    rw [List.getElem?_set_ne hne, hslots k hck hk', List.getElem?_append_left hk']

/-- Reading the slot at index `consumed.length % MAX_PROD` extends the log of
read values by the next written value. -/
theorem log_read {produtos written consumed : List Nat}
    (hlt : consumed.length < written.length)
    (hslots : ∀ k : Nat, consumed.length ≤ k → k < written.length →
      produtos[k % MAX_PROD]? = written[k]?)
    (hlog : consumed = written.take consumed.length) :
    consumed ++ [produtos.getD (consumed.length % MAX_PROD) 0]
      = written.take (consumed ++ [produtos.getD (consumed.length % MAX_PROD) 0]).length := by
  have h1 := hslots consumed.length (Nat.le_refl _) hlt
  rw [List.getElem?_eq_getElem hlt] at h1
  rw [List.getD_eq_getElem?_getD, h1, Option.getD_some, List.length_append,
    List.length_singleton, List.take_succ, List.getElem?_eq_getElem hlt, ← hlog]
  rfl

set_option maxHeartbeats 1000000 in
theorem sem_produtor_inv {cfg : Config} {s s' : State} {i rnd : Nat} (h : Inv s)
    (hs : produtor cfg s i rnd = some s') : Inv s' := by
  have I := h
  obtain ⟨h1, h2, h3, h4, h5, h6, h7, h8, h13, h9, h10, h11, h12⟩ := h
  simp only [nP, nC, MAX_PROD] at h1 h2 h3 h4 h5 h6 h7 h8 h9 h10 h13
  have hm1 := Bool.toNat_le s.mutex_m
  unfold produtor at hs
  cases hpc : s.produtores[i]? with
  | none => simp [hpc] at hs
  | some pc =>
    have hpos := one_le_count hpc
    cases pc <;> simp only [hpc] at hs
    case L71 =>
      simp only [Option.some.injEq] at hs; subst hs
      have hroom : s.written.length < s.consumed.length + MAX_PROD := by
        simp only [MAX_PROD]; omega
      constructor
      case slots => 
        have := slots_write (rnd % 99 + 1) I.size h6 hroom h11
        rw [← I.lenp] at this
        exact this
      case log =>
        show s.consumed = (s.written ++ [rnd % 99 + 1]).take s.consumed.length
        rw [List.take_append_of_le_length h6]; exact h12
      all_goals simp only [nP, nC, MAX_PROD, State.gotoP, count_set_eq hpc,
        reduceCtorEq, if_true, if_false, ite_true, ite_false, Bool.toNat_true,
        Bool.toNat_false, Nat.add_zero, Nat.sub_zero, List.length_append,
        List.length_singleton, List.length_set]
      all_goals omega
    all_goals (try split at hs)
    all_goals (try (rename_i hg; simp only [toNat_zero] at hg))
    all_goals first
      | (simp only [reduceCtorEq] at hs)
      | (simp only [Option.some.injEq] at hs; subst hs)
    all_goals constructor
    all_goals (try with_reducible assumption)
    all_goals simp only [nP, nC, MAX_PROD, State.gotoP, count_set_eq hpc,
        reduceCtorEq, if_true, if_false, ite_true, ite_false, Bool.toNat_true,
        Bool.toNat_false, Nat.add_zero, Nat.sub_zero]
    all_goals (try with_reducible assumption)
    all_goals omega

set_option maxHeartbeats 1000000 in
theorem sem_consumidor_inv {s s' : State} {i : Nat} (h : Inv s)
    (hs : consumidor s i = some s') : Inv s' := by
  have I := h
  obtain ⟨h1, h2, h3, h4, h5, h6, h7, h8, h13, h9, h10, h11, h12⟩ := h
  simp only [nP, nC, MAX_PROD] at h1 h2 h3 h4 h5 h6 h7 h8 h9 h10 h13
  have hm1 := Bool.toNat_le s.mutex_m
  unfold consumidor at hs
  cases hpc : s.consumidores[i]? with
  | none => simp [hpc] at hs
  | some pc =>
    have hpos := one_le_count hpc
    cases pc <;> simp only [hpc] at hs
    case L123 =>
      simp only [Option.some.injEq] at hs; subst hs
      have hlt := h9 hpos
      constructor
      case slots =>
        intro k hk hkw
        simp only [List.length_append, List.length_singleton] at hk
        exact h11 k (by omega) hkw
      case log =>
        have := log_read hlt h11 h12
        rw [← I.lenc] at this
        exact this
      all_goals simp only [nP, nC, MAX_PROD, State.gotoC, count_set_eq hpc,
        reduceCtorEq, if_true, if_false, ite_true, ite_false, Bool.toNat_true,
        Bool.toNat_false, Nat.add_zero, Nat.sub_zero, List.length_append,
        List.length_singleton, List.length_set]
      all_goals omega
    all_goals (try split at hs)
    all_goals (try (rename_i hg; simp only [toNat_zero] at hg))
    all_goals first
      | (simp only [reduceCtorEq] at hs)
      | (simp only [Option.some.injEq] at hs; subst hs)
    all_goals constructor
    all_goals (try with_reducible assumption)
    all_goals simp only [nP, nC, MAX_PROD, State.gotoC, count_set_eq hpc,
        reduceCtorEq, if_true, if_false, ite_true, ite_false, Bool.toNat_true,
        Bool.toNat_false, Nat.add_zero, Nat.sub_zero]
    all_goals (try with_reducible assumption)
    all_goals omega

set_option maxHeartbeats 1000000 in
theorem sem_main_inv {cfg : Config} {s s' : State} (h : Inv s) (hs : main cfg s = some s') :
    Inv s' := by
  obtain ⟨h1, h2, h3, h4, h5, h6, h7, h8, h13, h9, h10, h11, h12⟩ := h
  simp only [nP, nC, MAX_PROD] at h1 h2 h3 h4 h5 h6 h7 h8 h9 h10 h13
  have hm1 := Bool.toNat_le s.mutex_m
  unfold main at hs
  cases hm : s.mainPc <;> simp only [hm] at hs <;> simp only [hm, mainHolds, mainFlag, mainLoop, true_implies, false_implies,
    Nat.one_ne_zero] at h1 h7 h13
  all_goals (try split at hs)
  all_goals (try (rename_i hg; simp only [toNat_zero] at hg))
  all_goals first
    | (simp only [reduceCtorEq] at hs)
    | (simp only [Option.some.injEq] at hs; subst hs)
  all_goals constructor
  all_goals (try with_reducible assumption)
  all_goals simp only [nP, nC, MAX_PROD, hm, mainHolds, mainFlag, mainLoop, true_implies,
      false_implies, implies_true, Nat.one_ne_zero,
      reduceCtorEq, if_true, if_false, ite_true, ite_false, Bool.toNat_true,
      Bool.toNat_false, Nat.add_zero, Nat.sub_zero]
  all_goals (try with_reducible assumption)
  all_goals omega

theorem sem_inv_step {cfg : Config} {s s' : State} {a : Action} (h : Inv s)
    (hs : step cfg s a = some s') : Inv s' := by
  cases a with
  | produtor i rnd => exact sem_produtor_inv h hs
  | consumidor i => exact sem_consumidor_inv h hs
  | main => exact sem_main_inv h hs

theorem sem_inv_exec {cfg : Config} {tr : List Action} {s s' : State} (h : Inv s)
    (hs : exec cfg s tr = some s') : Inv s' := by
  induction tr generalizing s with
  | nil => simp only [exec, Option.some.injEq] at hs; exact hs ▸ h
  | cons a as ih =>
    simp only [exec] at hs
    cases hstep : step cfg s a with
    | none => simp [hstep] at hs
    | some s1 =>
      simp only [hstep, Option.some_bind] at hs
      exact ih (sem_inv_step h hstep) hs

theorem sem_inv_reachable {cfg : Config} {s : State} (h : Reachable cfg s) : Inv s := by
  obtain ⟨tr, htr⟩ := h
  exact sem_inv_exec (sem_inv_init cfg) htr


set_option maxRecDepth 100000 in
/-- C2 (failing run): `fullBufferSchedule` leads to `fullBufferExit`, where
consumer 1 has taken the exit branch of lines 110-118 (`len_cons == len_prod`
and `fim_flag` set) while twenty written items are unread; continued by
`exitSchedule` the program ends with every consumer gone and the twenty items
never read. -/
theorem consumer_exits_with_full_buffer :
    exec config (init config) fullBufferSchedule = some fullBufferExit ∧
    fullBufferExit.consumidores[1]? = some ConsumidorPc.L115 ∧
    fullBufferExit.len_cons = fullBufferExit.len_prod ∧
    unread fullBufferExit = 20 ∧
    exec config fullBufferExit exitSchedule = some abandonedState ∧
    (∀ pc ∈ abandonedState.consumidores, pc = ConsumidorPc.L117) ∧
    abandonedState.mainPc = MainPc.L193 ∧
    unread abandonedState = 20 := by
  decide

/-- C5: in every reachable state the values read by the consumers, in the
order of their critical sections, are an initial segment of the values written
by the producers; in particular, when the first values written are 5, 12, 99,
the first three values read are 5, 12, 99 in that order. -/
theorem consumed_initial_segment_of_written (cfg : Config) (s : State)
    (h : Reachable cfg s) :
    s.consumed <+: s.written ∧
    (s.written.take 3 = [5, 12, 99] → 3 ≤ s.consumed.length →
      s.consumed.take 3 = [5, 12, 99]) := by
  have I := sem_inv_reachable h
  have hlog := I.log
  refine ⟨by rw [hlog]; exact List.take_prefix _ _, ?_⟩
  intro hw hc
  rw [hlog, List.take_take, Nat.min_eq_left hc]
  exact hw

/-- Witness of C5: the scenario with one producer writing 5, 12, 99 and one
consumer, run to the end. -/
theorem consumed_initial_segment_of_written_witness :
    scenarioState.consumed = [5, 12, 99] ∧
    (scenarioState.consumed <+: scenarioState.written ∧
    (scenarioState.written.take 3 = [5, 12, 99] → 3 ≤ scenarioState.consumed.length →
      scenarioState.consumed.take 3 = [5, 12, 99])) :=
  ⟨rfl, consumed_initial_segment_of_written scenarioConfig scenarioState
    ⟨scenarioSchedule, by decide⟩⟩

/-- C12 as stated fails: after the `sem_wait(&prod_s)` of producer 0 the two
semaphores add up to 19, and in the scenario with one producer and one consumer
they add up to 21 after the `sem_post(&cons_s)` of `main` (line 186). -/
theorem semaphores_do_not_add_up :
    exec config (init config) [.produtor 0 0] = some waitedState ∧
    waitedState.prod_s + waitedState.cons_s = 19 ∧
    exec scenarioConfig (init scenarioConfig) postedSchedule = some postedState ∧
    postedState.prod_s + postedState.cons_s = 21 := by
  decide

/-- C12 (amended): in every reachable state `prod_s + cons_s`, plus the number
of threads between a `sem_wait` and the matching `sem_post`, plus the number of
consumers that exited after their `sem_wait(&cons_s)`, equals `MAX_PROD` plus
the number of `sem_post(&cons_s)` executed by `main`; so the two semaphores
add up to `MAX_PROD = 20` in the states in which no thread is between a
`sem_wait` and its `sem_post` and `fim_flag` is 0. -/
theorem semaphores_account_for_slots (cfg : Config) (s : State) (h : Reachable cfg s) :
    s.prod_s + s.cons_s + betweenP s + betweenC s + exited s = MAX_PROD + s.main_i ∧
    (s.fim_flag = 0 → s.prod_s + s.cons_s + betweenP s + betweenC s = MAX_PROD) ∧
    (s.fim_flag = 0 → betweenP s = 0 → betweenC s = 0 → s.prod_s + s.cons_s = 20) := by
  have I := sem_inv_reachable h
  have a1 := I.free
  have a2 := I.filled
  have a3 := I.noflag
  simp only [MAX_PROD, nP, nC] at a1 a2 a3
  simp only [betweenP, betweenC, exited, MAX_PROD, nP, nC]
  refine ⟨by omega, ?_, ?_⟩
  · intro hf; have := a3 hf; omega
  · intro hf hp hc; have := a3 hf; omega

/-- Witness of the amended C12 on `waitedState`: producer 0 is between its
`sem_wait(&prod_s)` and its `sem_post(&cons_s)`. -/
theorem semaphores_account_for_slots_witness :
    waitedState.prod_s + waitedState.cons_s + betweenP waitedState + betweenC waitedState
      + exited waitedState = MAX_PROD + waitedState.main_i ∧
    (waitedState.fim_flag = 0 →
      waitedState.prod_s + waitedState.cons_s + betweenP waitedState + betweenC waitedState
        = MAX_PROD) ∧
    (waitedState.fim_flag = 0 → betweenP waitedState = 0 → betweenC waitedState = 0 →
      waitedState.prod_s + waitedState.cons_s = 20) :=
  semaphores_account_for_slots config waitedState ⟨[.produtor 0 0], by decide⟩

end ConsumidorSem

/-! ## `consumidor_cond.c`: invariant and claims -/

namespace ConsumidorCond

theorem cond_inv_init (cfg : Config) : Inv (init cfg) := by
  constructor <;>
    simp [init, nP, nC, mainHolds, mainHoldsFim, mainFlag, mainBroad, MAX_PROD,
      List.count_replicate]

theorem count_broadcastCons (l : List ConsumidorPc) (x : ConsumidorPc) (h1 : x ≠ .W116)
    (h2 : x ≠ .R116) : (broadcastCons l).count x = l.count x := by
  induction l with
  | nil => rfl
  | cons y ys ih =>
    simp only [broadcastCons, List.map_cons, List.count_cons] at ih ⊢
    rw [ih]
    by_cases hy : y = .W116
    · subst hy; simp [h1.symm, h2.symm]
    · simp [hy]

theorem count_broadcastCons_W116 (l : List ConsumidorPc) :
    (broadcastCons l).count .W116 = 0 := by
  induction l with
  | nil => rfl
  | cons y ys ih =>
    simp only [broadcastCons, List.map_cons, List.count_cons] at ih ⊢
    rw [ih]
    by_cases hy : y = .W116
    · subst hy; simp
    · simp [hy]

set_option maxHeartbeats 1000000 in
theorem cond_produtor_inv {cfg : Config} {s s' : State} {i rnd wake : Nat} (h : Inv s)
    (hs : produtor cfg s i rnd wake = some s') : Inv s' := by
  obtain ⟨h1, h2, h3, h4, h5, h6, h7, h8, h9, h10⟩ := h
  simp only [nP, nC, MAX_PROD] at h1 h2 h3 h4 h5 h6 h7 h8 h9 h10
  have hm1 := Bool.toNat_le s.mutex_m
  have hm2 := Bool.toNat_le s.fim_m
  unfold produtor at hs
  cases hpc : s.produtores[i]? with
  | none => simp [hpc] at hs
  | some pc =>
    have hpos := one_le_count hpc
    cases pc <;> simp only [hpc] at hs
    case L73 =>
      unfold signalCons at hs
      split at hs
      · next l hl =>
        simp only [Option.some.injEq] at hs; subst hs
        split at hl
        · next hw =>
          simp only [Option.some.injEq] at hl; subst hl
          have hposw := one_le_count hw
          constructor
          all_goals simp only [nP, nC, MAX_PROD, State.gotoP, count_set_eq hpc, count_set_eq hw,
            reduceCtorEq, if_true, if_false, ite_true, ite_false, Nat.add_zero, Nat.sub_zero]
          all_goals omega
        · split at hl
          · simp only [Option.some.injEq] at hl; subst hl
            constructor
            all_goals simp only [nP, nC, MAX_PROD, State.gotoP, count_set_eq hpc,
              reduceCtorEq, if_true, if_false, ite_true, ite_false, Nat.add_zero, Nat.sub_zero]
            all_goals omega
          · simp only [reduceCtorEq] at hl
      · simp only [reduceCtorEq] at hs
    all_goals (try split at hs)
    all_goals (try (rename_i hg; simp only [toNat_zero, MAX_PROD] at hg))
    all_goals first
      | (simp only [reduceCtorEq] at hs)
      | (simp only [Option.some.injEq] at hs; subst hs)
    all_goals constructor
    all_goals (try with_reducible assumption)
    all_goals simp only [nP, nC, MAX_PROD, State.gotoP, count_set_eq hpc,
        reduceCtorEq, if_true, if_false, ite_true, ite_false, Bool.toNat_true,
        Bool.toNat_false, Nat.add_zero, Nat.sub_zero, List.length_append,
        List.length_singleton]
    all_goals (try with_reducible assumption)
    all_goals omega


set_option maxHeartbeats 1000000 in
theorem cond_consumidor_inv {s s' : State} {i wake : Nat} (h : Inv s)
    (hs : consumidor s i wake = some s') : Inv s' := by
  obtain ⟨h1, h2, h3, h4, h5, h6, h7, h8, h9, h10⟩ := h
  simp only [nP, nC, MAX_PROD] at h1 h2 h3 h4 h5 h6 h7 h8 h9 h10
  have hm1 := Bool.toNat_le s.mutex_m
  have hm2 := Bool.toNat_le s.fim_m
  have hma : mainBroad s.mainPc ≤ mainFlag s.mainPc := by
    cases s.mainPc <;> simp [mainBroad, mainFlag]
  unfold consumidor at hs
  cases hpc : s.consumidores[i]? with
  | none => simp [hpc] at hs
  | some pc =>
    have hpos := one_le_count hpc
    cases pc <;> simp only [hpc] at hs
    case L126 =>
      unfold signalProd at hs
      split at hs
      · next l hl =>
        simp only [Option.some.injEq] at hs; subst hs
        split at hl
        · next hw =>
          simp only [Option.some.injEq] at hl; subst hl
          have hposw := one_le_count hw
          constructor
          all_goals simp only [nP, nC, MAX_PROD, State.gotoC, count_set_eq hpc, count_set_eq hw,
            reduceCtorEq, if_true, if_false, ite_true, ite_false, Nat.add_zero, Nat.sub_zero]
          all_goals omega
        · split at hl
          · simp only [Option.some.injEq] at hl; subst hl
            constructor
            all_goals simp only [nP, nC, MAX_PROD, State.gotoC, count_set_eq hpc,
              reduceCtorEq, if_true, if_false, ite_true, ite_false, Nat.add_zero, Nat.sub_zero]
            all_goals omega
          · simp only [reduceCtorEq] at hl
      · simp only [reduceCtorEq] at hs
    all_goals (try split at hs)
    all_goals (try (rename_i hg; simp only [toNat_zero, MAX_PROD] at hg))
    all_goals first
      | (simp only [reduceCtorEq] at hs)
      | (simp only [Option.some.injEq] at hs; subst hs)
    all_goals constructor
    all_goals (try with_reducible assumption)
    all_goals simp only [nP, nC, MAX_PROD, State.gotoC, count_set_eq hpc,
        reduceCtorEq, if_true, if_false, ite_true, ite_false, Bool.toNat_true,
        Bool.toNat_false, Nat.add_zero, Nat.sub_zero, List.length_append,
        List.length_singleton]
    all_goals (try with_reducible assumption)
    all_goals omega

set_option maxHeartbeats 1000000 in
theorem cond_main_inv {s s' : State} (h : Inv s) (hs : main s = some s') : Inv s' := by
  obtain ⟨h1, h2, h3, h4, h5, h6, h7, h8, h9, h10⟩ := h
  simp only [nP, nC, MAX_PROD] at h1 h2 h3 h4 h5 h6 h7 h8 h9 h10
  have hm1 := Bool.toNat_le s.mutex_m
  have hm2 := Bool.toNat_le s.fim_m
  unfold main at hs
  cases hm : s.mainPc <;> simp only [hm] at hs <;>
    simp only [hm, mainHolds, mainHoldsFim, mainFlag, mainBroad, true_implies, false_implies,
      Nat.one_ne_zero, Nat.zero_ne_one] at h1 h2 h9 h10
  all_goals (try split at hs)
  all_goals (try (rename_i hg; simp only [toNat_zero] at hg))
  all_goals first
    | (simp only [reduceCtorEq] at hs)
    | (simp only [Option.some.injEq] at hs; subst hs)
  all_goals constructor
  all_goals (try with_reducible assumption)
  all_goals simp only [nP, nC, MAX_PROD, hm, mainHolds, mainHoldsFim, mainFlag, mainBroad,
      true_implies, false_implies, implies_true, Nat.one_ne_zero, Nat.zero_ne_one,
      reduceCtorEq, if_true, if_false, ite_true, ite_false, Bool.toNat_true,
      Bool.toNat_false, Nat.add_zero, Nat.sub_zero, count_broadcastCons,
      count_broadcastCons_W116, ne_eq, not_false_eq_true]
  all_goals (try with_reducible assumption)
  all_goals omega

theorem cond_spuriousP_inv {s s' : State} {i : Nat} (h : Inv s) (hs : spuriousP s i = some s') :
    Inv s' := by
  obtain ⟨h1, h2, h3, h4, h5, h6, h7, h8, h9, h10⟩ := h
  simp only [nP, nC, MAX_PROD] at h1 h2 h3 h4 h5 h6 h7 h8 h9 h10
  unfold spuriousP at hs
  split at hs
  · next hpc =>
    simp only [Option.some.injEq] at hs; subst hs
    constructor
    all_goals (try with_reducible assumption)
    all_goals simp only [nP, nC, MAX_PROD, State.gotoP, count_set_eq hpc,
        reduceCtorEq, if_true, if_false, ite_true, ite_false, Nat.add_zero, Nat.sub_zero]
    all_goals with_reducible assumption
  · simp only [reduceCtorEq] at hs

theorem cond_spuriousC_inv {s s' : State} {i : Nat} (h : Inv s) (hs : spuriousC s i = some s') :
    Inv s' := by
  obtain ⟨h1, h2, h3, h4, h5, h6, h7, h8, h9, h10⟩ := h
  simp only [nP, nC, MAX_PROD] at h1 h2 h3 h4 h5 h6 h7 h8 h9 h10
  unfold spuriousC at hs
  split at hs
  · next hpc =>
    have hpos := one_le_count hpc
    simp only [Option.some.injEq] at hs; subst hs
    constructor
    all_goals (try with_reducible assumption)
    all_goals simp only [nP, nC, MAX_PROD, State.gotoC, count_set_eq hpc,
        reduceCtorEq, if_true, if_false, ite_true, ite_false, Nat.add_zero, Nat.sub_zero]
    all_goals (try with_reducible assumption)
    all_goals omega
  · simp only [reduceCtorEq] at hs

theorem cond_inv_step {cfg : Config} {s s' : State} {a : Action} (h : Inv s)
    (hs : step cfg s a = some s') : Inv s' := by
  cases a with
  | produtor i rnd wake => exact cond_produtor_inv h hs
  | consumidor i wake => exact cond_consumidor_inv h hs
  | main => exact cond_main_inv h hs
  | spuriousP i => exact cond_spuriousP_inv h hs
  | spuriousC i => exact cond_spuriousC_inv h hs

theorem cond_inv_exec {cfg : Config} {tr : List Action} {s s' : State} (h : Inv s)
    (hs : exec cfg s tr = some s') : Inv s' := by
  induction tr generalizing s with
  | nil => simp only [exec, Option.some.injEq] at hs; exact hs ▸ h
  | cons a as ih =>
    simp only [exec] at hs
    cases hstep : step cfg s a with
    | none => simp [hstep] at hs
    | some s1 =>
      simp only [hstep, Option.some_bind] at hs
      exact ih (cond_inv_step h hstep) hs

theorem cond_inv_reachable {cfg : Config} {s : State} (h : Reachable cfg s) : Inv s := by
  obtain ⟨tr, htr⟩ := h
  exact cond_inv_exec (cond_inv_init cfg) htr


/-- C6: in every reachable state after `main` has executed
`pthread_cond_broadcast(&cons_cond)` (line 181), no consumer is suspended in
`pthread_cond_wait` on `cons_cond` (line 116), and none is on its way into the
wait (lines 114-116, reached only after reading `fim_flag == 0`). -/
theorem no_consumer_waits_after_broadcast (cfg : Config) (s : State)
    (h : Reachable cfg s) (hb : afterBroadcast s.mainPc = true) :
    ∀ (i : Nat) (pc : ConsumidorPc), s.consumidores[i]? = some pc →
      pc ≠ ConsumidorPc.W116 ∧ pc ≠ ConsumidorPc.L114 ∧ pc ≠ ConsumidorPc.L116 := by
  have I := cond_inv_reachable h
  have hw := I.woken
  have hm : mainBroad s.mainPc = 1 := by
    revert hb; cases s.mainPc <;> simp [afterBroadcast, mainBroad]
  have h0 := hw hm
  simp only [nC] at h0
  intro i pc hi
  have := one_le_count hi
  refine ⟨?_, ?_, ?_⟩ <;> intro hpc <;> subst hpc <;> omega

set_option maxRecDepth 100000 in
/-- Witness of C6: `broadcastState`, reached by `broadcastSchedule`, in which
consumer 1 was suspended when the broadcast was issued and is now woken
(line 116, reacquiring `mutex_m`). -/
theorem no_consumer_waits_after_broadcast_witness :
    afterBroadcast broadcastState.mainPc = true ∧
    broadcastState.consumidores[1]? = some ConsumidorPc.R116 ∧
    (ConsumidorPc.R116 ≠ ConsumidorPc.W116 ∧ ConsumidorPc.R116 ≠ ConsumidorPc.L114 ∧
      ConsumidorPc.R116 ≠ ConsumidorPc.L116) :=
  ⟨by decide, by decide,
    no_consumer_waits_after_broadcast config broadcastState ⟨broadcastSchedule, by decide⟩
      (by decide) 1 ConsumidorPc.R116 (by decide)⟩

end ConsumidorCond

/-! ## Both bounded-buffer programs -/

/-- C4: in every reachable state of both bounded-buffer programs the number of
items written and not yet read is between 0 and 20; in `consumidor_cond.c` it
equals `(len_prod - len_cons) mod MAX_PROD`; a consumer at its read of
`produtos[len_cons]` has an unread item, and a producer at its write of
`produtos[len_prod]` does not write over the slot of an unread item (item `k`,
in the order of writing, occupies slot `k % MAX_PROD`). -/
theorem bounded_buffer_occupancy
    (cfgC : ConsumidorCond.Config) (sC : ConsumidorCond.State)
    (hC : ConsumidorCond.Reachable cfgC sC)
    (cfgS : ConsumidorSem.Config) (sS : ConsumidorSem.State)
    (hS : ConsumidorSem.Reachable cfgS sS) :
    (sC.consumed.length ≤ sC.written.length ∧
     ConsumidorCond.unread sC ≤ 20 ∧
     ((sC.len_prod : Int) - (sC.len_cons : Int)) % (ConsumidorCond.MAX_PROD : Int)
       = (ConsumidorCond.unread sC : Int) ∧
     (∀ i : Nat, sC.consumidores[i]? = some ConsumidorCond.ConsumidorPc.L120 →
       0 < ConsumidorCond.unread sC) ∧
     (∀ i : Nat, sC.produtores[i]? = some ConsumidorCond.ProdutorPc.L66 →
       ∀ k : Nat, sC.consumed.length ≤ k → k < sC.written.length →
         k % ConsumidorCond.MAX_PROD ≠ sC.len_prod)) ∧
    (sS.consumed.length ≤ sS.written.length ∧
     ConsumidorSem.unread sS ≤ 20 ∧
     (∀ i : Nat, sS.consumidores[i]? = some ConsumidorSem.ConsumidorPc.L123 →
       0 < ConsumidorSem.unread sS) ∧
     (∀ i : Nat, sS.produtores[i]? = some ConsumidorSem.ProdutorPc.L71 →
       ∀ k : Nat, sS.consumed.length ≤ k → k < sS.written.length →
         k % ConsumidorSem.MAX_PROD ≠ sS.len_prod)) := by
  have IC := ConsumidorCond.cond_inv_reachable hC
  have IS := ConsumidorSem.sem_inv_reachable hS
  constructor
  · have a1 := IC.le
    have a2 := IC.cap
    have a3 := IC.lenp
    have a4 := IC.lenc
    have a5 := IC.rd
    have a6 := IC.wr
    simp only [ConsumidorCond.MAX_PROD, ConsumidorCond.nC, ConsumidorCond.nP] at a2 a3 a4 a5 a6
    simp only [ConsumidorCond.unread, ConsumidorCond.MAX_PROD]
    refine ⟨a1, by omega, by omega, ?_, ?_⟩
    · intro i hi
      have := a5 (one_le_count hi)
      omega
    · intro i hi k hk hkw
      have := a6 (one_le_count hi)
      omega
  · have a1 := IS.le
    have a2 := IS.free
    have a3 := IS.lenp
    have a5 := IS.rd
    simp only [ConsumidorSem.MAX_PROD, ConsumidorSem.nC, ConsumidorSem.nP] at a2 a3 a5
    simp only [ConsumidorSem.unread, ConsumidorSem.MAX_PROD]
    refine ⟨a1, by omega, ?_, ?_⟩
    · intro i hi
      have := a5 (one_le_count hi)
      omega
    · intro i hi k hk hkw
      have := one_le_count hi
      omega

/-- Witness of C4: a state of `consumidor_cond.c` with a producer at its write
and a state of `consumidor_sem.c` with a consumer at its read, one item unread
in each. -/
theorem bounded_buffer_occupancy_witness :
    (ConsumidorCond.writeState.consumed.length ≤ ConsumidorCond.writeState.written.length ∧
     ConsumidorCond.unread ConsumidorCond.writeState ≤ 20 ∧
     ((ConsumidorCond.writeState.len_prod : Int) - (ConsumidorCond.writeState.len_cons : Int))
         % (ConsumidorCond.MAX_PROD : Int)
       = (ConsumidorCond.unread ConsumidorCond.writeState : Int) ∧
     (∀ i : Nat, ConsumidorCond.writeState.consumidores[i]?
         = some ConsumidorCond.ConsumidorPc.L120 →
       0 < ConsumidorCond.unread ConsumidorCond.writeState) ∧
     (∀ i : Nat, ConsumidorCond.writeState.produtores[i]?
         = some ConsumidorCond.ProdutorPc.L66 →
       ∀ k : Nat, ConsumidorCond.writeState.consumed.length ≤ k →
         k < ConsumidorCond.writeState.written.length →
         k % ConsumidorCond.MAX_PROD ≠ ConsumidorCond.writeState.len_prod)) ∧
    (ConsumidorSem.readState.consumed.length ≤ ConsumidorSem.readState.written.length ∧
     ConsumidorSem.unread ConsumidorSem.readState ≤ 20 ∧
     (∀ i : Nat, ConsumidorSem.readState.consumidores[i]?
         = some ConsumidorSem.ConsumidorPc.L123 →
       0 < ConsumidorSem.unread ConsumidorSem.readState) ∧
     (∀ i : Nat, ConsumidorSem.readState.produtores[i]?
         = some ConsumidorSem.ProdutorPc.L71 →
       ∀ k : Nat, ConsumidorSem.readState.consumed.length ≤ k →
         k < ConsumidorSem.readState.written.length →
         k % ConsumidorSem.MAX_PROD ≠ ConsumidorSem.readState.len_prod)) :=
  bounded_buffer_occupancy ConsumidorCond.config ConsumidorCond.writeState
    ⟨ConsumidorCond.writeSchedule, by decide⟩
    ConsumidorSem.config ConsumidorSem.readState ⟨ConsumidorSem.readSchedule, by decide⟩
